import Mathlib

/-!
# Verification of the `ink` 2D rendering library core

Shallow embedding of the recording / draw-pass / backend pipeline of the
`ink` library (C++), together with proofs of the testable properties of its
specification.  Machine integers are modelled as `ℕ` / `ℤ` with explicit
bounds; `f32` coordinates are modelled as `ℚ` on the CPU rasterizer paths
(where only exact small values and truncations matter) and as `ℝ` on the GPU
geometry path (where a square root is taken).
-/

namespace Ink

/-- `ink::PixelFormat` (types.hpp): 4-byte-per-pixel formats. -/
inductive PixelFormat where
  | RGBA8888
  | BGRA8888
deriving DecidableEq

/-- `ink::Color` (types.hpp): 8-bit RGBA components, modelled as naturals.
The `u8` range is captured by `Color.wf`. -/
structure Color where
  r : ℕ
  g : ℕ
  b : ℕ
  a : ℕ
deriving DecidableEq

/-- Well-formedness of a color: every component fits in a byte (`u8`). -/
def Color.wf (c : Color) : Prop :=
  c.r < 256 ∧ c.g < 256 ∧ c.b < 256 ∧ c.a < 256

instance (c : Color) : Decidable c.wf := by unfold Color.wf; infer_instance

/-- `ink::DrawOp::Type` (recording.hpp): the tag of a compact draw op. -/
inductive DrawOpType where
  | FillRect
  | StrokeRect
  | Line
  | Polyline
  | Text
  | DrawImage
  | SetClip
  | ClearClip
deriving DecidableEq

/-- `static_cast<u8>(type)`: the underlying enum value. -/
def DrawOpType.toU8 : DrawOpType → ℕ
  | .FillRect => 0
  | .StrokeRect => 1
  | .Line => 2
  | .Polyline => 3
  | .Text => 4
  | .DrawImage => 5
  | .SetClip => 6
  | .ClearClip => 7

theorem DrawOpType.toU8_lt (t : DrawOpType) : t.toU8 < 256 := by
  cases t <;> simp [DrawOpType.toU8]

/-! ## Bit-manipulation helpers

The C++ sources pack fields with `<<` and `|` on disjoint bit ranges.  The
following lemma lets us convert such packings into plain arithmetic. -/

/-- A left-shift `or`-ed with a value that fits below the shift amount is
plain positional addition. -/
theorem shiftLeft_lor_eq (a b n : ℕ) (h : b < 2 ^ n) :
    (a <<< n) ||| b = a * 2 ^ n + b := by
  induction n generalizing a b with
  | zero =>
    interval_cases b
    simp [Nat.shiftLeft_eq]
  | succ n ih =>
    have hb2 : b / 2 < 2 ^ n := by
      have hpow : (2:ℕ) ^ (n + 1) = 2 ^ n * 2 := by ring
      omega
    have hbit : Nat.bit (Nat.bodd b) (Nat.div2 b) = b := Nat.bit_decomp b
    have hsh : a <<< (n + 1) = Nat.bit false (a <<< n) := by
      simp only [Nat.shiftLeft_eq, Nat.bit, Bool.cond_false, Nat.pow_succ]
      ring
    have hdiv2 : Nat.div2 b = b / 2 := Nat.div2_val b
    calc a <<< (n + 1) ||| b
        = Nat.bit false (a <<< n) ||| Nat.bit (Nat.bodd b) (Nat.div2 b) := by
          rw [hsh, hbit]
      _ = Nat.bit (false || Nat.bodd b) ((a <<< n) ||| Nat.div2 b) := Nat.lor_bit _ _ _ _
      _ = Nat.bit (Nat.bodd b) (a * 2 ^ n + b / 2) := by
          rw [Bool.false_or, hdiv2, ih a (b / 2) hb2]
      _ = a * 2 ^ (n + 1) + b := by
          have hb : (Nat.bodd b).toNat + 2 * Nat.div2 b = b := Nat.bodd_add_div2 b
          rw [hdiv2] at hb
          rw [Nat.bit_val, Nat.pow_succ, ← mul_assoc]
          omega

/-! ## SortKey (draw_pass.hpp) -/

/-- `ink::SortKey`: a packed 64-bit sort key plus the op index it belongs to. -/
structure SortKey where
  key : ℕ
  opIndex : ℕ
deriving DecidableEq

/-- The 32-bit color hash computed inside `SortKey::make`:
`(u32(c.r) << 24) | (u32(c.g) << 16) | (u32(c.b) << 8) | u32(c.a)`. -/
def colorHash (c : Color) : ℕ :=
  ((c.r <<< 24) ||| (c.g <<< 16)) ||| ((c.b <<< 8) ||| c.a)

/-- `ink::SortKey::make` (draw_pass.hpp): packs
`k |= clipId << 48; k |= u8(type) << 40; k |= colorHash << 8; k |= seq`. -/
def SortKey.make (clipId : ℕ) (type : DrawOpType) (c : Color) (seq : ℕ) (idx : ℕ) :
    SortKey :=
  { key := (((clipId <<< 48) ||| (type.toU8 <<< 40)) ||| (colorHash c <<< 8)) ||| seq
    opIndex := idx }

theorem colorHash_eq (c : Color) (h : c.wf) :
    colorHash c = c.r * 2 ^ 24 + c.g * 2 ^ 16 + c.b * 2 ^ 8 + c.a := by
  obtain ⟨hr, hg, hb, ha⟩ := h
  unfold colorHash
  rw [Nat.lor_assoc]
  rw [shiftLeft_lor_eq c.b c.a 8 (by omega)]
  rw [shiftLeft_lor_eq c.g (c.b * 2 ^ 8 + c.a) 16 (by nlinarith)]
  rw [shiftLeft_lor_eq c.r (c.g * 2 ^ 16 + (c.b * 2 ^ 8 + c.a)) 24 (by nlinarith)]
  ring

theorem colorHash_lt (c : Color) (h : c.wf) : colorHash c < 2 ^ 32 := by
  rw [colorHash_eq c h]
  obtain ⟨hr, hg, hb, ha⟩ := h
  nlinarith

/-- C2 helper: the packed key as positional arithmetic. -/
theorem SortKey.make_key_eq (clipId : ℕ) (type : DrawOpType) (c : Color)
    (seq : ℕ) (idx : ℕ) (hclip : clipId < 2 ^ 16) (hc : c.wf) (hseq : seq < 2 ^ 8) :
    (SortKey.make clipId type c seq idx).key =
      clipId * 2 ^ 48 + type.toU8 * 2 ^ 40 + colorHash c * 2 ^ 8 + seq := by
  have hch : colorHash c < 2 ^ 32 := colorHash_lt c hc
  have ht : type.toU8 < 256 := type.toU8_lt
  unfold SortKey.make
  simp only
  rw [Nat.lor_assoc, Nat.lor_assoc]
  rw [shiftLeft_lor_eq (colorHash c) seq 8 (by omega)]
  rw [shiftLeft_lor_eq type.toU8 (colorHash c * 2 ^ 8 + seq) 40 (by nlinarith)]
  rw [shiftLeft_lor_eq clipId
    (type.toU8 * 2 ^ 40 + (colorHash c * 2 ^ 8 + seq)) 48 (by nlinarith)]
  ring

/-- **C2.** `SortKey::make(g, t, c, s, i)` produces the 64-bit key
`(g << 48) | (t << 40) | (colorHash << 8) | s` with
`colorHash = (r << 24) | (g << 16) | (b << 8) | a`; equivalently the key
layout is `[63:48]` clip group id, `[47:40]` op type, `[39:8]` color hash,
`[7:0]` sequence, and the op index is carried through unchanged. -/
theorem sortKey_make_layout (clipId : ℕ) (type : DrawOpType) (c : Color)
    (seq : ℕ) (idx : ℕ) (hclip : clipId < 2 ^ 16) (hc : c.wf) (hseq : seq < 2 ^ 8) :
    (SortKey.make clipId type c seq idx).key =
      clipId * 2 ^ 48 + type.toU8 * 2 ^ 40 + colorHash c * 2 ^ 8 + seq ∧
    colorHash c = c.r * 2 ^ 24 + c.g * 2 ^ 16 + c.b * 2 ^ 8 + c.a ∧
    (SortKey.make clipId type c seq idx).key / 2 ^ 48 % 2 ^ 16 = clipId ∧
    (SortKey.make clipId type c seq idx).key / 2 ^ 40 % 2 ^ 8 = type.toU8 ∧
    (SortKey.make clipId type c seq idx).key / 2 ^ 8 % 2 ^ 32 = colorHash c ∧
    (SortKey.make clipId type c seq idx).key % 2 ^ 8 = seq ∧
    (SortKey.make clipId type c seq idx).key < 2 ^ 64 ∧
    (SortKey.make clipId type c seq idx).opIndex = idx := by
  have hkey := SortKey.make_key_eq clipId type c seq idx hclip hc hseq
  have hch : colorHash c < 2 ^ 32 := colorHash_lt c hc
  have ht : type.toU8 < 256 := type.toU8_lt
  refine ⟨hkey, colorHash_eq c hc, ?_, ?_, ?_, ?_, ?_, rfl⟩
  · rw [hkey]
    have h1 : (2:ℕ) ^ 48 = 281474976710656 := by norm_num
    have h2 : (2:ℕ) ^ 40 = 1099511627776 := by norm_num
    have h3 : (2:ℕ) ^ 32 = 4294967296 := by norm_num
    have h4 : (2:ℕ) ^ 16 = 65536 := by norm_num
    have h5 : (2:ℕ) ^ 8 = 256 := by norm_num
    rw [h1, h2, h3, h4, h5] at *
    omega
  · rw [hkey]
    have h1 : (2:ℕ) ^ 48 = 281474976710656 := by norm_num
    have h2 : (2:ℕ) ^ 40 = 1099511627776 := by norm_num
    have h3 : (2:ℕ) ^ 32 = 4294967296 := by norm_num
    have h4 : (2:ℕ) ^ 16 = 65536 := by norm_num
    have h5 : (2:ℕ) ^ 8 = 256 := by norm_num
    rw [h1, h2, h3, h4, h5] at *
    omega
  · rw [hkey]
    have h1 : (2:ℕ) ^ 48 = 281474976710656 := by norm_num
    have h2 : (2:ℕ) ^ 40 = 1099511627776 := by norm_num
    have h3 : (2:ℕ) ^ 32 = 4294967296 := by norm_num
    have h4 : (2:ℕ) ^ 16 = 65536 := by norm_num
    have h5 : (2:ℕ) ^ 8 = 256 := by norm_num
    rw [h1, h2, h3, h4, h5] at *
    omega
  · rw [hkey]
    have h1 : (2:ℕ) ^ 48 = 281474976710656 := by norm_num
    have h2 : (2:ℕ) ^ 40 = 1099511627776 := by norm_num
    have h5 : (2:ℕ) ^ 8 = 256 := by norm_num
    rw [h1, h2, h5] at *
    omega
  · rw [hkey]
    have h1 : (2:ℕ) ^ 48 = 281474976710656 := by norm_num
    have h2 : (2:ℕ) ^ 40 = 1099511627776 := by norm_num
    have h3 : (2:ℕ) ^ 32 = 4294967296 := by norm_num
    have h4 : (2:ℕ) ^ 16 = 65536 := by norm_num
    have h5 : (2:ℕ) ^ 8 = 256 := by norm_num
    have h6 : (2:ℕ) ^ 64 = 18446744073709551616 := by norm_num
    rw [h1, h2, h3, h4, h5, h6] at *
    omega

/-- Witness for C2 at a concrete input. -/
theorem sortKey_make_layout_witness :
    (3 : ℕ) < 2 ^ 16 ∧ Color.wf ⟨255, 128, 7, 9⟩ ∧ (5 : ℕ) < 2 ^ 8 ∧
    (SortKey.make 3 DrawOpType.Line ⟨255, 128, 7, 9⟩ 5 11).key =
      3 * 2 ^ 48 + 2 * 2 ^ 40 + colorHash ⟨255, 128, 7, 9⟩ * 2 ^ 8 + 5 := by
  refine ⟨by norm_num, by decide, by norm_num, ?_⟩
  have h := (sortKey_make_layout 3 DrawOpType.Line ⟨255, 128, 7, 9⟩ 5 11
    (by norm_num) (by decide) (by norm_num)).1
  simpa [DrawOpType.toU8] using h

/-! ## DrawOpArena (recording.hpp / recording.cpp)

The arena is a growable byte vector.  Bytes are modelled as naturals < 256.
`Point` payloads are `memcpy`ed as raw bytes: each `f32` coordinate is stored
as its 32-bit pattern in little-endian byte order, so an arena-level point is
a pair of 32-bit words (the bit patterns of `x` and `y`). -/

/-- A `Point` as it crosses the arena boundary: the 32-bit patterns of its
two `f32` coordinates. -/
structure ArenaPoint where
  xbits : ℕ
  ybits : ℕ
deriving DecidableEq

/-- An arena point is well formed when both words fit in 32 bits. -/
def ArenaPoint.wf (p : ArenaPoint) : Prop := p.xbits < 2 ^ 32 ∧ p.ybits < 2 ^ 32

instance (p : ArenaPoint) : Decidable p.wf := by unfold ArenaPoint.wf; infer_instance

/-- Little-endian bytes of a 32-bit word. -/
def word32Bytes (w : ℕ) : List ℕ :=
  [w % 256, w / 256 % 256, w / 65536 % 256, w / 16777216 % 256]

/-- Reassemble a 32-bit word from little-endian bytes. -/
def bytesWord32 (b0 b1 b2 b3 : ℕ) : ℕ :=
  b0 + b1 * 256 + b2 * 65536 + b3 * 16777216

/-- The 8 bytes `memcpy` reads from a `Point{f32 x; f32 y}`. -/
def pointBytes (p : ArenaPoint) : List ℕ := word32Bytes p.xbits ++ word32Bytes p.ybits

/-- `ink::DrawOpArena`: append-only byte buffer (`std::vector<u8> data_`). -/
structure DrawOpArena where
  data : List ℕ

/-- `DrawOpArena::allocate`: returns the current size and extends the buffer
by `bytes` zero bytes (`std::vector::resize` zero-fills). -/
def DrawOpArena.allocate (a : DrawOpArena) (bytes : ℕ) : ℕ × DrawOpArena :=
  (a.data.length, ⟨a.data ++ List.replicate bytes 0⟩)

/-- `memcpy(data_.data() + offset, src, n)`: overwrite `bs.length` bytes of
`d` starting at `off`. -/
def writeBytes (d : List ℕ) (off : ℕ) (bs : List ℕ) : List ℕ :=
  d.take off ++ bs ++ d.drop (off + bs.length)

/-- `DrawOpArena::storeString`: allocate `len+1` bytes, copy the payload and
write a terminating zero byte. -/
def DrawOpArena.storeString (a : DrawOpArena) (s : List ℕ) : ℕ × DrawOpArena :=
  let r := a.allocate (s.length + 1)
  let d := writeBytes r.2.data r.1 s
  (r.1, ⟨d.set (r.1 + s.length) 0⟩)

/-- `DrawOpArena::storePoints`: allocate `count*sizeof(Point)` bytes and
`memcpy` the raw point bytes. -/
def DrawOpArena.storePoints (a : DrawOpArena) (pts : List ArenaPoint) : ℕ × DrawOpArena :=
  let r := a.allocate (pts.length * 8)
  (r.1, ⟨writeBytes r.2.data r.1 ((pts.map pointBytes).flatten)⟩)

/-- `DrawOpArena::getString`: the returned `const char*` is the byte suffix
of the buffer starting at `offset`. -/
def DrawOpArena.getString (a : DrawOpArena) (off : ℕ) : List ℕ :=
  a.data.drop off

/-- Read one `Point` (8 bytes, two little-endian 32-bit words) at the head
of a byte suffix. -/
def readPoint (d : List ℕ) : ArenaPoint :=
  { xbits := bytesWord32 (d.getD 0 0) (d.getD 1 0) (d.getD 2 0) (d.getD 3 0)
    ybits := bytesWord32 (d.getD 4 0) (d.getD 5 0) (d.getD 6 0) (d.getD 7 0) }

/-- `DrawOpArena::getPoints` paired with the element count the recorder
stores alongside the offset: reinterpret the bytes at `offset` as `n`
consecutive `Point`s. -/
def DrawOpArena.getPoints (a : DrawOpArena) (off n : ℕ) : List ArenaPoint :=
  (List.range n).map fun i => readPoint (a.data.drop (off + 8 * i))

/-- `DrawOpArena::reset`: truncate to zero length. -/
def DrawOpArena.reset (_ : DrawOpArena) : DrawOpArena := ⟨[]⟩

theorem storeString_data (a : DrawOpArena) (s : List ℕ) :
    (a.storeString s).2.data = a.data ++ s ++ [0] ∧
    (a.storeString s).1 = a.data.length := by
  unfold DrawOpArena.storeString DrawOpArena.allocate writeBytes
  simp only [List.length_append, List.length_replicate]
  constructor
  · have htake : (a.data ++ List.replicate (s.length + 1) 0).take a.data.length = a.data := by
      simp
    have hdrop : (a.data ++ List.replicate (s.length + 1) 0).drop
        (a.data.length + s.length) = [0] := by
      rw [List.drop_append_eq_append_drop]
      simp [List.drop_replicate]
    rw [htake, hdrop]
    rw [List.set_append_right _ _ (by simp)]
    simp
  · trivial

theorem DrawOpArena.eq_of_data (x y : DrawOpArena) (h : x.data = y.data) : x = y := by
  cases x; cases y; simpa using h

theorem pointBytes_length (p : ArenaPoint) : (pointBytes p).length = 8 := by
  simp [pointBytes, word32Bytes]

theorem flatten_pointBytes_length (pts : List ArenaPoint) :
    ((pts.map pointBytes).flatten).length = pts.length * 8 := by
  induction pts with
  | nil => simp
  | cons p rest ih => simp [ih, pointBytes_length, Nat.succ_mul, Nat.add_comm]

theorem storePoints_data (a : DrawOpArena) (pts : List ArenaPoint) :
    (a.storePoints pts).2.data = a.data ++ (pts.map pointBytes).flatten ∧
    (a.storePoints pts).1 = a.data.length := by
  unfold DrawOpArena.storePoints DrawOpArena.allocate writeBytes
  refine ⟨?_, rfl⟩
  simp only
  have htake : (a.data ++ List.replicate (pts.length * 8) 0).take a.data.length = a.data := by
    simp
  have hdrop : (a.data ++ List.replicate (pts.length * 8) 0).drop
      (a.data.length + ((pts.map pointBytes).flatten).length) = [] := by
    rw [flatten_pointBytes_length, List.drop_append_eq_append_drop]
    simp [List.drop_replicate]
  rw [htake, hdrop, List.append_nil]

theorem word32_roundtrip (w : ℕ) (h : w < 4294967296) :
    w % 256 + w / 256 % 256 * 256 + w / 65536 % 256 * 65536 +
      w / 16777216 % 256 * 16777216 = w := by
  have h1 : w / 65536 = w / 256 / 256 := by
    rw [Nat.div_div_eq_div_mul]
  have h2 : w / 16777216 = w / 256 / 256 / 256 := by
    rw [Nat.div_div_eq_div_mul, Nat.div_div_eq_div_mul]
  rw [h1, h2]
  omega

theorem readPoint_pointBytes (p : ArenaPoint) (rest : List ℕ) (h : p.wf) :
    readPoint (pointBytes p ++ rest) = p := by
  obtain ⟨hx, hy⟩ := h
  have h32 : (2:ℕ) ^ 32 = 4294967296 := by norm_num
  rw [h32] at hx hy
  unfold readPoint pointBytes word32Bytes bytesWord32
  obtain ⟨x, y⟩ := p
  simp only [List.cons_append, List.nil_append, List.getD_cons_zero, List.getD_cons_succ,
    ArenaPoint.mk.injEq]
  exact ⟨word32_roundtrip x hx, word32_roundtrip y hy⟩

theorem getPoints_of_layout (pre post : List ℕ) (pts : List ArenaPoint)
    (h : ∀ p ∈ pts, p.wf) :
    DrawOpArena.getPoints ⟨pre ++ (pts.map pointBytes).flatten ++ post⟩
      pre.length pts.length = pts := by
  induction pts generalizing pre with
  | nil => simp [DrawOpArena.getPoints]
  | cons p rest ih =>
    have hp : p.wf := h p (by simp)
    have hrest : ∀ q ∈ rest, q.wf := fun q hq => h q (by simp [hq])
    unfold DrawOpArena.getPoints
    simp only [List.length_cons, List.range_succ_eq_map, List.map_cons, List.map_map]
    have hstep := ih (pre ++ pointBytes p) hrest
    unfold DrawOpArena.getPoints at hstep
    refine List.cons_eq_cons.mpr ⟨?_, ?_⟩
    · rw [Nat.mul_zero, Nat.add_zero, List.append_assoc, List.drop_left]
      rw [List.flatten_cons, List.append_assoc]
      exact readPoint_pointBytes p _ hp
    · refine Eq.trans (List.map_congr_left ?_) hstep
      intro i _
      simp only [Function.comp_apply]
      congr 1
      have hlen : (pre ++ pointBytes p).length = pre.length + 8 := by
        simp [pointBytes_length]
      rw [hlen, List.flatten_cons]
      have hidx : pre.length + 8 * (i + 1) = pre.length + 8 + 8 * i := by ring
      rw [hidx]
      congr 1
      simp [List.append_assoc]

/-- **C7.** Arena round-trip and offset stability: storing a string then a
point list, the string reads back (its bytes followed by a NUL terminator),
the points read back element-wise, and both survive a later store. -/
theorem arena_roundtrip (a : DrawOpArena) (s : List ℕ) (pts : List ArenaPoint)
    (hpts : ∀ p ∈ pts, p.wf) :
    (((a.storeString s).2.storePoints pts).2.getString
        (a.storeString s).1).take s.length = s ∧
    (((a.storeString s).2.storePoints pts).2.getString
        (a.storeString s).1).getD s.length 0 = 0 ∧
    ((a.storeString s).2.storePoints pts).2.getPoints
        ((a.storeString s).2.storePoints pts).1 pts.length = pts ∧
    (∀ s2 : List ℕ,
      ((((a.storeString s).2.storePoints pts).2.storeString s2).2.getString
          (a.storeString s).1).take s.length = s ∧
      ((((a.storeString s).2.storePoints pts).2.storeString s2).2.getPoints
          ((a.storeString s).2.storePoints pts).1 pts.length = pts)) := by
  obtain ⟨hd1, ho1⟩ := storeString_data a s
  obtain ⟨hd2, ho2⟩ := storePoints_data (a.storeString s).2 pts
  have hstr : ∀ tail : List ℕ,
      ((a.data ++ s ++ [0] ++ tail).drop (a.storeString s).1).take s.length = s ∧
      ((a.data ++ s ++ [0] ++ tail).drop (a.storeString s).1).getD s.length 0 = 0 := by
    intro tail
    rw [ho1]
    have : a.data ++ s ++ [0] ++ tail = a.data ++ (s ++ ([0] ++ tail)) := by
      simp [List.append_assoc]
    rw [this, List.drop_left]
    constructor
    · exact List.take_left s ([0] ++ tail)
    · rw [List.getD_append_right s ([0] ++ tail) 0 s.length (le_refl s.length)]
      simp
  have hptsRead : ∀ post : List ℕ,
      DrawOpArena.getPoints ⟨(a.storeString s).2.data ++ (pts.map pointBytes).flatten ++ post⟩
        (a.storeString s).2.data.length pts.length = pts :=
    fun post => getPoints_of_layout _ post pts hpts
  refine ⟨?_, ?_, ?_, ?_⟩
  · unfold DrawOpArena.getString
    rw [hd2, hd1]
    have := (hstr ((pts.map pointBytes).flatten)).1
    simpa [List.append_assoc] using this
  · unfold DrawOpArena.getString
    rw [hd2, hd1]
    have := (hstr ((pts.map pointBytes).flatten)).2
    simpa [List.append_assoc] using this
  · rw [ho2, DrawOpArena.eq_of_data _
      ⟨(a.storeString s).2.data ++ (List.map pointBytes pts).flatten⟩ hd2]
    have := hptsRead []
    rwa [List.append_nil] at this
  · intro s2
    obtain ⟨hd3, _⟩ := storeString_data ((a.storeString s).2.storePoints pts).2 s2
    constructor
    · unfold DrawOpArena.getString
      rw [hd3, hd2, hd1]
      have := (hstr ((pts.map pointBytes).flatten ++ s2 ++ [0])).1
      simpa [List.append_assoc] using this
    · rw [ho2, DrawOpArena.eq_of_data
        ((((a.storeString s).2.storePoints pts).2.storeString s2).2)
        ⟨(a.storeString s).2.data ++ (List.map pointBytes pts).flatten ++ (s2 ++ [0])⟩
        (by rw [hd3, hd2]; simp [List.append_assoc])]
      exact hptsRead (s2 ++ [0])

/-- Concrete arena used by the C7 witness. -/
def arenaW : DrawOpArena := ⟨[9]⟩

/-- Concrete point used by the C7 witness. -/
def ptW : ArenaPoint := ⟨5, 4294967295⟩

/-- Witness for C7 at a concrete input. -/
theorem arena_roundtrip_witness :
    (∀ p ∈ [ptW], p.wf) ∧
    ((arenaW.storeString [104, 105]).2.storePoints [ptW]).2.getPoints
      ((arenaW.storeString [104, 105]).2.storePoints [ptW]).1 1 = [ptW] := by
  refine ⟨by decide, ?_⟩
  exact (arena_roundtrip arenaW [104, 105] [ptW] (by decide)).2.2.1

/-! ## Geometry and compact draw ops (types.hpp / recording.hpp)

`f32` coordinates on the CPU paths are modelled as `ℚ`: the rasterizer only
truncates them to `i32` and compares them, and every concrete value in the
spec's scenarios is exactly representable. -/

/-- `ink::Point` with `f32` coordinates, modelled over `ℚ`. -/
structure PointQ where
  x : ℚ
  y : ℚ
deriving DecidableEq

/-- `ink::Rect` with `f32` fields, modelled over `ℚ`. -/
structure RectQ where
  x : ℚ
  y : ℚ
  w : ℚ
  h : ℚ
deriving DecidableEq

/-- C truncation of an `f32` value to `i32` (`i32(v)`): round toward zero
(`Int.tdiv` is truncating division). -/
def ratToI32 (q : ℚ) : ℤ := q.num.tdiv q.den

@[simp] theorem ratToI32_intCast (z : ℤ) : ratToI32 (z : ℚ) = z := by
  unfold ratToI32
  rw [Rat.num_intCast, Rat.den_intCast]
  exact Int.tdiv_one z

@[simp] theorem ratToI32_natCast (n : ℕ) : ratToI32 (n : ℚ) = n := by
  rw [show ((n : ℚ)) = ((n : ℤ) : ℚ) by push_cast; ring, ratToI32_intCast]

@[simp] theorem ratToI32_zero : ratToI32 0 = 0 := by
  rw [show (0 : ℚ) = ((0 : ℤ) : ℚ) by norm_num, ratToI32_intCast]

@[simp] theorem ratToI32_one : ratToI32 1 = 1 := by
  rw [show (1 : ℚ) = ((1 : ℤ) : ℚ) by norm_num, ratToI32_intCast]

@[simp] theorem ratToI32_ofNat (n : ℕ) [n.AtLeastTwo] :
    ratToI32 (no_index (OfNat.ofNat n) : ℚ) = OfNat.ofNat n := by
  rw [show (OfNat.ofNat n : ℚ) = ((OfNat.ofNat n : ℤ) : ℚ) by norm_num, ratToI32_intCast]

/-- The payload union of `ink::CompactDrawOp`. -/
inductive DrawOpData where
  | fill (rect : RectQ)
  | stroke (rect : RectQ)
  | line (p1 p2 : PointQ)
  | polyline (offset count : ℕ)
  | text (pos : PointQ) (offset len : ℕ)
  | image (x y : ℚ) (imageIndex : ℕ)
  | clip (rect : RectQ)
  | clearClip

/-- `ink::CompactDrawOp` (recording.hpp): type tag, color, width, payload. -/
structure CompactDrawOp where
  type : DrawOpType
  color : Color
  width : ℚ
  data : DrawOpData

/-! ## DrawPass (draw_pass.hpp; algorithm modelled from the spec) -/

/-- Modelled from the spec: the body of `DrawPass::create` (its
`draw_pass.cpp`) is missing from the sources — only the declaration in
`draw_pass.hpp`, its callers and its tests are present.  Following spec
§4.3: walk the ops in order keeping a clip group id (`u16`, starting at 0; a
`SetClip` or `ClearClip` opens — and belongs to — a new group) and a
per-group sequence byte (reset on a new group, wrapping at 256), and give
each op the key `SortKey::make(clipId, type, color, seq, index)`. -/
def assignKeys : List CompactDrawOp → ℕ → ℕ → ℕ → List SortKey
  | [], _, _, _ => []
  | op :: rest, idx, clipId, seq =>
    let newGroup : Bool := op.type = DrawOpType.SetClip ∨ op.type = DrawOpType.ClearClip
    let clipId' := if newGroup then (clipId + 1) % 65536 else clipId
    let seq0 := if newGroup then 0 else seq
    SortKey.make clipId' op.type op.color seq0 idx ::
      assignKeys rest (idx + 1) clipId' ((seq0 + 1) % 256)

/-- Modelled from the spec (§4.3 step 3, and `draw_pass.hpp`'s documented
contract): pair each op with its sort key and sort ascending by key,
returning the op indices. -/
def DrawPass.create (ops : List CompactDrawOp) : List ℕ :=
  ((assignKeys ops 0 0 0).mergeSort (fun a b => Nat.ble a.key b.key)).map SortKey.opIndex

theorem assignKeys_map_opIndex (ops : List CompactDrawOp) (idx clipId seq : ℕ) :
    (assignKeys ops idx clipId seq).map SortKey.opIndex = List.range' idx ops.length := by
  induction ops generalizing idx clipId seq with
  | nil => simp [assignKeys]
  | cons op rest ih =>
    simp only [assignKeys, List.map_cons, List.length_cons, List.range'_succ]
    exact List.cons_eq_cons.mpr ⟨rfl, ih _ _ _⟩

/-- **C1.** For every recording, `DrawPass::create` returns a permutation of
the op indices `0 .. ops.len - 1`: every index appears exactly once. -/
theorem drawPass_create_perm (ops : List CompactDrawOp) :
    (DrawPass.create ops).Perm (List.range ops.length) := by
  unfold DrawPass.create
  have h1 := List.mergeSort_perm (assignKeys ops 0 0 0) (fun a b => Nat.ble a.key b.key)
  have h2 := h1.map SortKey.opIndex
  rw [assignKeys_map_opIndex] at h2
  simpa [List.range_eq_range'] using h2

/-! ## Pixmap and Image (pixmap.hpp / image.hpp) -/

/-- `ink::Pixmap`: dimensions, format, pixel pointer (`hasPixels` models
`pixels_ != nullptr`) and the 32-bit pixel words, addressed as
`rowAddr(y)[x]` and modelled as a function of `(y, x)`. -/
structure Pixmap where
  width : ℤ
  height : ℤ
  format : PixelFormat
  hasPixels : Bool
  pix : ℤ → ℤ → ℕ

/-- `Pixmap::valid()`: `pixels_ != nullptr && width > 0 && height > 0`. -/
def Pixmap.valid (t : Pixmap) : Prop :=
  t.hasPixels = true ∧ 0 < t.width ∧ 0 < t.height

instance (t : Pixmap) : Decidable t.valid := by unfold Pixmap.valid; infer_instance

/-- Write one 32-bit pixel word (`row[x] = v`). -/
def Pixmap.setPix (t : Pixmap) (y x : ℤ) (v : ℕ) : Pixmap :=
  { t with pix := fun y' x' => if y' = y ∧ x' = x then v else t.pix y' x' }

/-- `ink::Image::StorageType`. -/
inductive StorageType where
  | cpuPixmap
  | gpuTexture
deriving DecidableEq

/-- `ink::Image` (image.hpp): immutable snapshot.  CPU pixel words are
modelled as a `(row, col)` function (absorbing the `stride/4` flattening of
`pixels32()`). -/
structure Image where
  width : ℤ
  height : ℤ
  format : PixelFormat
  hasPixels : Bool
  pix : ℤ → ℤ → ℕ
  storageType : StorageType
  glTextureId : ℕ

/-- `Image::valid()` (image.hpp). -/
def Image.valid (i : Image) : Prop :=
  0 < i.width ∧ 0 < i.height ∧
    (if i.storageType = StorageType.cpuPixmap then i.hasPixels = true
     else i.glTextureId ≠ 0)

instance (i : Image) : Decidable i.valid := by unfold Image.valid; infer_instance

/-! ## CpuBackend (cpu_backend.hpp / cpu_backend.cpp) -/

/-- `ink::CpuBackend` state: target pixmap pointer and the active clip. -/
structure CpuBackend where
  target : Option Pixmap
  hasClip : Bool
  clipRect : RectQ

/-- Pack `0xFF000000 | (chHi << 16) | (chMid << 8) | chLo` — the common
shape of the opaque-alpha pixel writes in `blendPixel` / `drawImageImpl`.
For `BGRA8888` the high channel is red, for `RGBA8888` it is blue. -/
def packFF (fmt : PixelFormat) (r g b : ℕ) : ℕ :=
  match fmt with
  | .BGRA8888 => ((0xFF000000 ||| (r <<< 16)) ||| (g <<< 8)) ||| b
  | .RGBA8888 => ((0xFF000000 ||| (b <<< 16)) ||| (g <<< 8)) ||| r

/-- `drawHLine`'s packed pixel: `(a << 24) | ...` in the target's format. -/
def packPixel (fmt : PixelFormat) (c : Color) : ℕ :=
  match fmt with
  | .BGRA8888 => (((c.a <<< 24) ||| (c.r <<< 16)) ||| (c.g <<< 8)) ||| c.b
  | .RGBA8888 => (((c.a <<< 24) ||| (c.b <<< 16)) ||| (c.g <<< 8)) ||| c.r

/-- Channel extraction `(r, g, b)` from a 32-bit word in the given format
(`blendPixel` / `drawImageImpl`). -/
def channels (fmt : PixelFormat) (w : ℕ) : ℕ × ℕ × ℕ :=
  match fmt with
  | .BGRA8888 => ((w >>> 16) &&& 0xFF, (w >>> 8) &&& 0xFF, w &&& 0xFF)
  | .RGBA8888 => (w &&& 0xFF, (w >>> 8) &&& 0xFF, (w >>> 16) &&& 0xFF)

/-- One blended channel: `u8((src*a + dst*(255 - a)) / 255)`. -/
def blendChan (s d a : ℕ) : ℕ := (s * a + d * (255 - a)) / 255 % 256

/-- `CpuBackend::effectiveClip`. -/
def CpuBackend.effectiveClip (b : CpuBackend) : RectQ :=
  match b.target with
  | none => ⟨0, 0, 0, 0⟩
  | some t =>
    if ¬ t.valid then ⟨0, 0, 0, 0⟩
    else if b.hasClip then b.clipRect
    else ⟨0, 0, (t.width : ℚ), (t.height : ℚ)⟩

/-- `CpuBackend::isClipped`. -/
def CpuBackend.isClipped (b : CpuBackend) (x y : ℤ) : Prop :=
  x < ratToI32 b.effectiveClip.x ∨
  x ≥ ratToI32 (b.effectiveClip.x + b.effectiveClip.w) ∨
  y < ratToI32 b.effectiveClip.y ∨
  y ≥ ratToI32 (b.effectiveClip.y + b.effectiveClip.h)

instance (b : CpuBackend) (x y : ℤ) : Decidable (b.isClipped x y) := by
  unfold CpuBackend.isClipped; infer_instance

/-- `CpuBackend::blendPixel` (cpu_backend.cpp). -/
def CpuBackend.blendPixel (b : CpuBackend) (x y : ℤ) (c : Color) : CpuBackend :=
  match b.target with
  | none => b
  | some t =>
    if ¬ t.valid then b
    else if x < 0 ∨ x ≥ t.width ∨ y < 0 ∨ y ≥ t.height then b
    else if b.isClipped x y then b
    else
      let dst := t.pix y x
      if c.a = 255 then
        { b with target := some (t.setPix y x (packFF t.format c.r c.g c.b)) }
      else if c.a = 0 then b
      else
        let ch := channels t.format dst
        let outR := blendChan c.r ch.1 c.a
        let outG := blendChan c.g ch.2.1 c.a
        let outB := blendChan c.b ch.2.2 c.a
        { b with target := some (t.setPix y x (packFF t.format outR outG outB)) }

/-- The inclusive integer range `[lo, hi]` (empty when `hi < lo`). -/
def intRange (lo hi : ℤ) : List ℤ :=
  (List.range (hi + 1 - lo).toNat).map fun (i : ℕ) => lo + (i : ℤ)

/-- The fast-path row write of `drawHLine`: `row[x] = pixel` for each `x`. -/
def writeRowFun (p : ℤ → ℤ → ℕ) (y : ℤ) (xs : List ℤ) (v : ℕ) : ℤ → ℤ → ℕ :=
  xs.foldl (fun acc xx => fun y' x' => if y' = y ∧ x' = xx then v else acc y' x') p

/-- `CpuBackend::drawHLine` (cpu_backend.cpp). -/
def CpuBackend.drawHLine (b : CpuBackend) (x1 x2 y : ℤ) (c : Color) : CpuBackend :=
  match b.target with
  | none => b
  | some t =>
    if ¬ t.valid then b
    else if y < 0 ∨ y ≥ t.height then b
    else
      let clip := b.effectiveClip
      let x1a := max x1 (ratToI32 clip.x)
      let x2a := min x2 (ratToI32 (clip.x + clip.w) - 1)
      if y < ratToI32 clip.y ∨ y ≥ ratToI32 (clip.y + clip.h) then b
      else if x1a > x2a then b
      else
        let x1b := max x1a 0
        let x2b := min x2a (t.width - 1)
        if c.a = 255 then
          let t' : Pixmap :=
            { t with pix := writeRowFun t.pix y (intRange x1b x2b) (packPixel t.format c) }
          { b with target := some t' }
        else
          (intRange x1b x2b).foldl (fun st xx => st.blendPixel xx y c) b

/-- The state of Bresenham's loop in `drawLineImpl`, embedded with fuel.
The `while (true)` loop is modelled with fuel `dx + dy + 1`, which
`bresLoop_last` below proves sufficient: the walk reaches `(x2, y2)` and
stops there. -/
def bresLoop : ℕ → ℤ → ℤ → ℤ → ℤ → ℤ → ℤ → ℤ → ℤ → ℤ → List (ℤ × ℤ)
  | 0, _, _, _, _, _, _, _, _, _ => []
  | fuel + 1, x1, y1, x2, y2, dx, dy, sx, sy, err =>
    (x1, y1) ::
      (if x1 = x2 ∧ y1 = y2 then []
       else
         let e2 := 2 * err
         let err1 := if e2 > -dy then err - dy else err
         let x1' := if e2 > -dy then x1 + sx else x1
         let err2 := if e2 < dx then err1 + dx else err1
         let y1' := if e2 < dx then y1 + sy else y1
         bresLoop fuel x1' y1' x2 y2 dx dy sx sy err2)

/-- The integer points plotted by `CpuBackend::drawLineImpl`'s Bresenham
walk from `(x1, y1)` to `(x2, y2)`. -/
def bresPoints (x1 y1 x2 y2 : ℤ) : List (ℤ × ℤ) :=
  let dx := |x2 - x1|
  let dy := |y2 - y1|
  let sx : ℤ := if x1 < x2 then 1 else -1
  let sy : ℤ := if y1 < y2 then 1 else -1
  bresLoop ((dx + dy).toNat + 1) x1 y1 x2 y2 dx dy sx sy (dx - dy)

/-- `CpuBackend::drawLineImpl` (cpu_backend.cpp): plot the Bresenham walk,
blending one pixel per step. -/
def CpuBackend.drawLineImpl (b : CpuBackend) (x1 y1 x2 y2 : ℤ) (c : Color) : CpuBackend :=
  (bresPoints x1 y1 x2 y2).foldl (fun st p => st.blendPixel p.1 p.2 c) b

/-- Write one pixel word of the target (`dstLine[col] = v`). -/
def CpuBackend.writePix (b : CpuBackend) (x y : ℤ) (v : ℕ) : CpuBackend :=
  match b.target with
  | none => b
  | some t => { b with target := some (t.setPix y x v) }

/-- `CpuBackend::drawImageImpl` (cpu_backend.cpp). -/
def CpuBackend.drawImageImpl (b : CpuBackend) (image : Option Image) (x y : ℚ) :
    CpuBackend :=
  match b.target with
  | none => b
  | some t =>
    if ¬ t.valid then b
    else
      match image with
      | none => b
      | some img =>
        if ¬ img.valid then b
        else
          let dstX := ratToI32 x
          let dstY := ratToI32 y
          let clip := b.effectiveClip
          let clipX1 := max (ratToI32 clip.x) 0
          let clipY1 := max (ratToI32 clip.y) 0
          let clipX2 := min (ratToI32 (clip.x + clip.w)) t.width
          let clipY2 := min (ratToI32 (clip.y + clip.h)) t.height
          let startX := max dstX clipX1
          let startY := max dstY clipY1
          let endX := min (dstX + img.width) clipX2
          let endY := min (dstY + img.height) clipY2
          if startX ≥ endX ∨ startY ≥ endY then b
          else
            (intRange startY (endY - 1)).foldl (fun st row =>
              (intRange startX (endX - 1)).foldl (fun st2 col =>
                let sp := img.pix (row - dstY) (col - dstX)
                let sa := (sp >>> 24) &&& 0xFF
                if sa = 0 then st2
                else
                  let ch := channels img.format sp
                  if sa = 255 then
                    st2.writePix col row (packFF t.format ch.1 ch.2.1 ch.2.2)
                  else
                    st2.blendPixel col row ⟨ch.1, ch.2.1, ch.2.2, sa⟩) st) b

/-- `CpuBackend::execFillRect` (cpu_backend.cpp). -/
def CpuBackend.execFillRect (b : CpuBackend) (r : RectQ) (c : Color) : CpuBackend :=
  match b.target with
  | none => b
  | some t =>
    if ¬ t.valid then b
    else
      let clip := b.effectiveClip
      let x1 := max (ratToI32 r.x) (ratToI32 clip.x)
      let y1 := max (ratToI32 r.y) (ratToI32 clip.y)
      let x2 := min (ratToI32 (r.x + r.w)) (ratToI32 (clip.x + clip.w))
      let y2 := min (ratToI32 (r.y + r.h)) (ratToI32 (clip.y + clip.h))
      let x1b := max x1 0
      let y1b := max y1 0
      let x2b := min x2 t.width
      let y2b := min y2 t.height
      if x1b ≥ x2b ∨ y1b ≥ y2b then b
      else (intRange y1b (y2b - 1)).foldl (fun st yy => st.drawHLine x1b (x2b - 1) yy c) b

/-- `CpuBackend::execStrokeRect` (cpu_backend.cpp).  The `f32` width
parameter is unnamed and unused in the source. -/
def CpuBackend.execStrokeRect (b : CpuBackend) (r : RectQ) (c : Color) (_w : ℚ) :
    CpuBackend :=
  match b.target with
  | none => b
  | some t =>
    if ¬ t.valid then b
    else
      let x1 := ratToI32 r.x
      let y1 := ratToI32 r.y
      let x2 := ratToI32 (r.x + r.w)
      let y2 := ratToI32 (r.y + r.h)
      let b1 := b.drawHLine x1 x2 y1 c
      let b2 := b1.drawHLine x1 x2 y2 c
      (intRange y1 y2).foldl (fun st yy => (st.blendPixel x1 yy c).blendPixel x2 yy c) b2

/-- `CpuBackend::execLine` (cpu_backend.cpp): truncate the endpoints to
`i32` and run Bresenham; the width parameter is unnamed and unused. -/
def CpuBackend.execLine (b : CpuBackend) (p1 p2 : PointQ) (c : Color) (_w : ℚ) :
    CpuBackend :=
  b.drawLineImpl (ratToI32 p1.x) (ratToI32 p1.y) (ratToI32 p2.x) (ratToI32 p2.y) c

/-- `CpuBackend::execSetClip`. -/
def CpuBackend.execSetClip (b : CpuBackend) (r : RectQ) : CpuBackend :=
  { b with clipRect := r, hasClip := true }

/-- `CpuBackend::execClearClip`. -/
def CpuBackend.execClearClip (b : CpuBackend) : CpuBackend :=
  { b with hasClip := false, clipRect := ⟨0, 0, 0, 0⟩ }

/-! ## Recording (recording.cpp) -/

/-- `ink::Recording`: ops, arena, image table.  An image-table entry is an
`Option` because a recorded `shared_ptr<Image>` may itself be null. -/
structure Recording where
  ops : List CompactDrawOp
  arena : DrawOpArena
  images : List (Option Image)

/-- `Recording::getImage` (recording.cpp): bounds-checked table lookup,
`nullptr` when out of range. -/
def Recording.getImage (rec : Recording) (index : ℕ) : Option Image :=
  if index < rec.images.length then (rec.images.getD index none) else none

/-! ## Pixel packing arithmetic -/

theorem and255_eq_mod (x : ℕ) : x &&& 255 = x % 256 := by
  have h := Nat.and_pow_two_sub_one_eq_mod x 8
  norm_num at h
  exact h

theorem lor_top_byte (X : ℕ) (hX : X < 16777216) :
    (4278190080 : ℕ) ||| X = 4278190080 + X := by
  have h24 : (4278190080 : ℕ) = 255 <<< 24 := by norm_num [Nat.shiftLeft_eq]
  conv_lhs => rw [h24]
  rw [shiftLeft_lor_eq 255 X 24 (by norm_num; omega)]
  norm_num

theorem packFF_bgra_eq (r g b : ℕ) (hr : r < 256) (hg : g < 256) (hb : b < 256) :
    packFF PixelFormat.BGRA8888 r g b = 4278190080 + r * 65536 + g * 256 + b := by
  show (((4278190080 : ℕ) ||| (r <<< 16)) ||| (g <<< 8)) ||| b = _
  rw [Nat.lor_assoc, Nat.lor_assoc]
  rw [shiftLeft_lor_eq g b 8 (by omega)]
  rw [shiftLeft_lor_eq r (g * 2 ^ 8 + b) 16 (by nlinarith)]
  rw [lor_top_byte (r * 2 ^ 16 + (g * 2 ^ 8 + b)) (by nlinarith)]
  norm_num
  omega

theorem packFF_rgba_eq (r g b : ℕ) (hr : r < 256) (hg : g < 256) (hb : b < 256) :
    packFF PixelFormat.RGBA8888 r g b = 4278190080 + b * 65536 + g * 256 + r := by
  show (((4278190080 : ℕ) ||| (b <<< 16)) ||| (g <<< 8)) ||| r = _
  rw [Nat.lor_assoc, Nat.lor_assoc]
  rw [shiftLeft_lor_eq g r 8 (by omega)]
  rw [shiftLeft_lor_eq b (g * 2 ^ 8 + r) 16 (by nlinarith)]
  rw [lor_top_byte (b * 2 ^ 16 + (g * 2 ^ 8 + r)) (by nlinarith)]
  norm_num
  omega

theorem channels_packFF (fmt : PixelFormat) (r g b : ℕ)
    (hr : r < 256) (hg : g < 256) (hb : b < 256) :
    channels fmt (packFF fmt r g b) = (r, g, b) := by
  cases fmt with
  | BGRA8888 =>
    rw [packFF_bgra_eq r g b hr hg hb]
    unfold channels
    simp only [Nat.shiftRight_eq_div_pow, and255_eq_mod]
    refine Prod.ext ?_ (Prod.ext ?_ ?_) <;> simp only <;> omega
  | RGBA8888 =>
    rw [packFF_rgba_eq r g b hr hg hb]
    unfold channels
    simp only [Nat.shiftRight_eq_div_pow, and255_eq_mod]
    refine Prod.ext ?_ (Prod.ext ?_ ?_) <;> simp only <;> omega

theorem packFF_alpha_byte (fmt : PixelFormat) (r g b : ℕ)
    (hr : r < 256) (hg : g < 256) (hb : b < 256) :
    packFF fmt r g b / 16777216 % 256 = 255 := by
  cases fmt with
  | BGRA8888 => rw [packFF_bgra_eq r g b hr hg hb]; omega
  | RGBA8888 => rw [packFF_rgba_eq r g b hr hg hb]; omega

theorem channels_fst_lt (fmt : PixelFormat) (w : ℕ) : (channels fmt w).1 < 256 := by
  cases fmt <;> simp [channels, and255_eq_mod, Nat.mod_lt]

theorem channels_snd_lt (fmt : PixelFormat) (w : ℕ) : (channels fmt w).2.1 < 256 := by
  cases fmt <;> simp [channels, and255_eq_mod, Nat.mod_lt]

theorem channels_thd_lt (fmt : PixelFormat) (w : ℕ) : (channels fmt w).2.2 < 256 := by
  cases fmt <;> simp [channels, and255_eq_mod, Nat.mod_lt]

theorem blendChan_lt (s d a : ℕ) : blendChan s d a < 256 := by
  unfold blendChan
  exact Nat.mod_lt _ (by norm_num)

theorem blendChan_eq (s d a : ℕ) (hs : s < 256) (hd : d < 256) (ha : a ≤ 255) :
    blendChan s d a = (s * a + d * (255 - a)) / 255 := by
  unfold blendChan
  have ha1 : s * a ≤ 255 * a := Nat.mul_le_mul_right a (by omega)
  have ha2 : d * (255 - a) ≤ 255 * (255 - a) := Nat.mul_le_mul_right _ (by omega)
  have h1 : s * a + d * (255 - a) ≤ 255 * 255 := by omega
  have h2 : (s * a + d * (255 - a)) / 255 ≤ 255 * 255 / 255 := Nat.div_le_div_right h1
  norm_num at h2
  omega

/-- **C3.** `CpuBackend::blendPixel`: with `a = 0` the destination is left
unchanged; with `a = 255` it is replaced by the color packed in the target's
format; with `0 < a < 255` every output channel is
`(src*a + dst*(255-a)) / 255` in integer arithmetic, and the stored alpha
byte of the written word is always `255`. -/
theorem cpu_blendPixel_cases (b : CpuBackend) (t : Pixmap) (x y : ℤ) (c : Color)
    (hb : b.target = some t) (hv : t.valid)
    (hx : 0 ≤ x) (hx2 : x < t.width) (hy : 0 ≤ y) (hy2 : y < t.height)
    (hcl : ¬ b.isClipped x y) (hc : c.wf) :
    (c.a = 0 → b.blendPixel x y c = b) ∧
    (c.a = 255 → b.blendPixel x y c =
        { b with target := some (t.setPix y x (packFF t.format c.r c.g c.b)) } ∧
      packFF t.format c.r c.g c.b / 16777216 % 256 = 255) ∧
    (0 < c.a → c.a < 255 →
      ∃ w : ℕ,
        b.blendPixel x y c = { b with target := some (t.setPix y x w) } ∧
        (channels t.format w).1 =
          (c.r * c.a + (channels t.format (t.pix y x)).1 * (255 - c.a)) / 255 ∧
        (channels t.format w).2.1 =
          (c.g * c.a + (channels t.format (t.pix y x)).2.1 * (255 - c.a)) / 255 ∧
        (channels t.format w).2.2 =
          (c.b * c.a + (channels t.format (t.pix y x)).2.2 * (255 - c.a)) / 255 ∧
        w / 16777216 % 256 = 255) := by
  obtain ⟨hcr, hcg, hcb, hca⟩ := hc
  have hred : b.blendPixel x y c =
      (if ¬ t.valid then b
       else if x < 0 ∨ x ≥ t.width ∨ y < 0 ∨ y ≥ t.height then b
       else if b.isClipped x y then b
       else
         let dst := t.pix y x
         if c.a = 255 then
           { b with target := some (t.setPix y x (packFF t.format c.r c.g c.b)) }
         else if c.a = 0 then b
         else
           let ch := channels t.format dst
           let outR := blendChan c.r ch.1 c.a
           let outG := blendChan c.g ch.2.1 c.a
           let outB := blendChan c.b ch.2.2 c.a
           { b with target := some (t.setPix y x (packFF t.format outR outG outB)) }) := by
    unfold CpuBackend.blendPixel
    rw [hb]
  rw [hred, if_neg (by simpa using hv), if_neg (by omega), if_neg hcl]
  simp only
  refine ⟨?_, ?_, ?_⟩
  · intro h0
    rw [if_neg (by omega), if_pos h0]
  · intro h255
    rw [if_pos h255]
    exact ⟨rfl, packFF_alpha_byte t.format c.r c.g c.b hcr hcg hcb⟩
  · intro hpos hlt
    rw [if_neg (by omega), if_neg (by omega)]
    refine ⟨packFF t.format
        (blendChan c.r (channels t.format (t.pix y x)).1 c.a)
        (blendChan c.g (channels t.format (t.pix y x)).2.1 c.a)
        (blendChan c.b (channels t.format (t.pix y x)).2.2 c.a), rfl, ?_, ?_, ?_, ?_⟩
    · rw [channels_packFF t.format _ _ _ (blendChan_lt _ _ _) (blendChan_lt _ _ _)
        (blendChan_lt _ _ _)]
      exact blendChan_eq _ _ _ hcr (channels_fst_lt _ _) (by omega)
    · rw [channels_packFF t.format _ _ _ (blendChan_lt _ _ _) (blendChan_lt _ _ _)
        (blendChan_lt _ _ _)]
      exact blendChan_eq _ _ _ hcg (channels_snd_lt _ _) (by omega)
    · rw [channels_packFF t.format _ _ _ (blendChan_lt _ _ _) (blendChan_lt _ _ _)
        (blendChan_lt _ _ _)]
      exact blendChan_eq _ _ _ hcb (channels_thd_lt _ _) (by omega)
    · exact packFF_alpha_byte t.format _ _ _ (blendChan_lt _ _ _) (blendChan_lt _ _ _)
        (blendChan_lt _ _ _)

/-- Concrete 1×1 BGRA pixmap for witnesses. -/
def pixW : Pixmap := ⟨1, 1, PixelFormat.BGRA8888, true, fun _ _ => 0⟩

/-- Concrete CPU backend state over `pixW` with no clip. -/
def cpuW : CpuBackend := ⟨some pixW, false, ⟨0, 0, 0, 0⟩⟩

theorem cpuW_notClipped : ¬ cpuW.isClipped 0 0 := by
  norm_num [cpuW, pixW, CpuBackend.isClipped, CpuBackend.effectiveClip, Pixmap.valid]

/-- Witness for C3 at a concrete input. -/
theorem cpu_blendPixel_cases_witness :
    cpuW.target = some pixW ∧ pixW.valid ∧ ¬ cpuW.isClipped 0 0 ∧
    Color.wf ⟨9, 8, 7, 0⟩ ∧ cpuW.blendPixel 0 0 ⟨9, 8, 7, 0⟩ = cpuW := by
  refine ⟨rfl, by decide, cpuW_notClipped, by decide, ?_⟩
  exact (cpu_blendPixel_cases cpuW pixW 0 0 ⟨9, 8, 7, 0⟩ rfl (by decide)
    (by decide) (by decide) (by decide) (by decide) cpuW_notClipped (by decide)).1 rfl

/-! ## Pointwise characterization of the CPU rasterizer

Every CpuBackend operation preserves the target's dimensions, format and
validity and the clip state, and only rewrites pixel words.  The lemmas
below characterize each operation as an explicit per-pixel function on a
state in the canonical form `mkB t hc cr`. -/

/-- A CPU backend state with a present target. -/
def mkB (t : Pixmap) (hc : Bool) (cr : RectQ) : CpuBackend := ⟨some t, hc, cr⟩

/-- The word `blendPixel` leaves at a pixel whose guards pass, as a function
of the old word: opaque replace / transparent keep / integer blend. -/
def blendResult (fmt : PixelFormat) (c : Color) (dst : ℕ) : ℕ :=
  if c.a = 255 then packFF fmt c.r c.g c.b
  else if c.a = 0 then dst
  else
    packFF fmt (blendChan c.r (channels fmt dst).1 c.a)
      (blendChan c.g (channels fmt dst).2.1 c.a)
      (blendChan c.b (channels fmt dst).2.2 c.a)

/-- The guard of `blendPixel` at `(x, y)`: valid target, in bounds, not
clipped. -/
def bCond (t : Pixmap) (hc : Bool) (cr : RectQ) (x y : ℤ) : Prop :=
  t.valid ∧ 0 ≤ x ∧ x < t.width ∧ 0 ≤ y ∧ y < t.height ∧
    ¬ (mkB t hc cr).isClipped x y

instance (t : Pixmap) (hc : Bool) (cr : RectQ) (x y : ℤ) :
    Decidable (bCond t hc cr x y) := by
  unfold bCond; infer_instance

theorem mkB_pix_congr (t : Pixmap) (hc : Bool) (cr : RectQ) (p q : ℤ → ℤ → ℕ)
    (h : ∀ y x, p y x = q y x) :
    mkB { t with pix := p } hc cr = mkB { t with pix := q } hc cr := by
  have : p = q := funext fun y => funext fun x => h y x
  rw [this]

theorem blendPixel_mkB (t : Pixmap) (hc : Bool) (cr : RectQ) (x y : ℤ) (c : Color) :
    (mkB t hc cr).blendPixel x y c =
      mkB { t with pix := (fun y' x' =>
        if y' = y ∧ x' = x ∧ bCond t hc cr x y then blendResult t.format c (t.pix y x)
        else t.pix y' x') } hc cr := by
  by_cases hg : bCond t hc cr x y
  · obtain ⟨hv, hx1, hx2, hy1, hy2, hcl⟩ := hg
    show (if ¬ t.valid then mkB t hc cr
      else if x < 0 ∨ x ≥ t.width ∨ y < 0 ∨ y ≥ t.height then mkB t hc cr
      else if (mkB t hc cr).isClipped x y then mkB t hc cr
      else
        let dst := t.pix y x
        if c.a = 255 then
          { mkB t hc cr with target := some (t.setPix y x (packFF t.format c.r c.g c.b)) }
        else if c.a = 0 then mkB t hc cr
        else
          let ch := channels t.format dst
          let outR := blendChan c.r ch.1 c.a
          let outG := blendChan c.g ch.2.1 c.a
          let outB := blendChan c.b ch.2.2 c.a
          { mkB t hc cr with target := some (t.setPix y x (packFF t.format outR outG outB)) }) = _
    rw [if_neg (by simpa using hv), if_neg (by omega), if_neg hcl]
    simp only
    by_cases ha255 : c.a = 255
    · rw [if_pos ha255]
      show mkB (t.setPix y x (packFF t.format c.r c.g c.b)) hc cr = _
      unfold Pixmap.setPix
      apply mkB_pix_congr
      intro y' x'
      by_cases hp : y' = y ∧ x' = x
      · rw [if_pos hp, if_pos ⟨hp.1, hp.2, hv, hx1, hx2, hy1, hy2, hcl⟩]
        unfold blendResult
        rw [if_pos ha255]
      · rw [if_neg hp, if_neg (by tauto)]
    · rw [if_neg ha255]
      by_cases ha0 : c.a = 0
      · rw [if_pos ha0]
        show mkB t hc cr = _
        conv_lhs => rw [show t = { t with pix := t.pix } from rfl]
        apply mkB_pix_congr
        intro y' x'
        by_cases hp : y' = y ∧ x' = x
        · rw [if_pos ⟨hp.1, hp.2, hv, hx1, hx2, hy1, hy2, hcl⟩]
          unfold blendResult
          rw [if_neg ha255, if_pos ha0, hp.1, hp.2]
        · rw [if_neg (by tauto)]
      · rw [if_neg ha0]
        show mkB (t.setPix y x _) hc cr = _
        unfold Pixmap.setPix
        apply mkB_pix_congr
        intro y' x'
        by_cases hp : y' = y ∧ x' = x
        · rw [if_pos hp, if_pos ⟨hp.1, hp.2, hv, hx1, hx2, hy1, hy2, hcl⟩]
          unfold blendResult
          rw [if_neg ha255, if_neg ha0]
        · rw [if_neg hp, if_neg (by tauto)]
  · have hrhs : mkB { t with pix := (fun y' x' =>
        if y' = y ∧ x' = x ∧ bCond t hc cr x y then blendResult t.format c (t.pix y x)
        else t.pix y' x') } hc cr = mkB t hc cr := by
      conv_rhs => rw [show t = { t with pix := t.pix } from rfl]
      apply mkB_pix_congr
      intro y' x'
      rw [if_neg (by tauto)]
    rw [hrhs]
    unfold CpuBackend.blendPixel
    show (if ¬ t.valid then mkB t hc cr
      else if x < 0 ∨ x ≥ t.width ∨ y < 0 ∨ y ≥ t.height then mkB t hc cr
      else if (mkB t hc cr).isClipped x y then mkB t hc cr
      else _) = mkB t hc cr
    by_cases hv : t.valid
    · rw [if_neg (by simpa using hv)]
      by_cases hbd : x < 0 ∨ x ≥ t.width ∨ y < 0 ∨ y ≥ t.height
      · rw [if_pos hbd]
      · rw [if_neg hbd]
        have hcl : (mkB t hc cr).isClipped x y := by
          by_contra hncl
          exact hg ⟨hv, by omega, by omega, by omega, by omega, hncl⟩
        rw [if_pos hcl]
    · rw [if_pos (by simpa using hv)]

theorem mem_intRange (lo hi x : ℤ) : x ∈ intRange lo hi ↔ lo ≤ x ∧ x ≤ hi := by
  unfold intRange
  constructor
  · intro hx
    obtain ⟨i, hi1, heq⟩ := List.mem_map.mp hx
    rw [List.mem_range] at hi1
    omega
  · intro h
    refine List.mem_map.mpr ⟨(x - lo).toNat, ?_, ?_⟩
    · rw [List.mem_range]
      omega
    · omega

theorem intRange_nodup (lo hi : ℤ) : (intRange lo hi).Nodup := by
  unfold intRange
  have hinj : Function.Injective (fun i : ℕ => lo + (i : ℤ)) := by
    intro a b hab
    simp only at hab
    omega
  exact (List.nodup_range _).map hinj

theorem packPixel_a255 (fmt : PixelFormat) (c : Color) (ha : c.a = 255) :
    packPixel fmt c = packFF fmt c.r c.g c.b := by
  have h : c.a <<< 24 = 4278190080 := by rw [ha]; norm_num [Nat.shiftLeft_eq]
  cases fmt
  · show (((c.a <<< 24) ||| (c.b <<< 16)) ||| (c.g <<< 8)) ||| c.r =
      (((4278190080 : ℕ) ||| (c.b <<< 16)) ||| (c.g <<< 8)) ||| c.r
    rw [h]
  · show (((c.a <<< 24) ||| (c.r <<< 16)) ||| (c.g <<< 8)) ||| c.b =
      (((4278190080 : ℕ) ||| (c.r <<< 16)) ||| (c.g <<< 8)) ||| c.b
    rw [h]

theorem bCond_update (t : Pixmap) (p : ℤ → ℤ → ℕ) (hc : Bool) (cr : RectQ) (x y : ℤ) :
    bCond { t with pix := p } hc cr x y = bCond t hc cr x y := rfl

theorem writeRowFun_apply (p : ℤ → ℤ → ℕ) (y : ℤ) (xs : List ℤ) (v : ℕ) (y' x' : ℤ) :
    writeRowFun p y xs v y' x' = if y' = y ∧ x' ∈ xs then v else p y' x' := by
  induction xs generalizing p with
  | nil => simp [writeRowFun]
  | cons xx rest ih =>
    show writeRowFun (fun yy xp => if yy = y ∧ xp = xx then v else p yy xp) y rest v y' x' = _
    rw [ih]
    simp only [List.mem_cons]
    by_cases h1 : y' = y ∧ x' ∈ rest
    · rw [if_pos h1, if_pos ⟨h1.1, Or.inr h1.2⟩]
    · rw [if_neg h1]
      show (if y' = y ∧ x' = xx then v else p y' x') = _
      by_cases h2 : y' = y ∧ x' = xx
      · rw [if_pos h2, if_pos ⟨h2.1, Or.inl h2.2⟩]
      · rw [if_neg h2, if_neg (by tauto)]

@[simp] theorem pix_update (t : Pixmap) (p : ℤ → ℤ → ℕ) :
    ({ t with pix := p } : Pixmap).pix = p := rfl

theorem rowBlendFold (t : Pixmap) (hc : Bool) (cr : RectQ) (y : ℤ) (c : Color)
    (xs : List ℤ) (hnd : xs.Nodup) :
    xs.foldl (fun st xx => st.blendPixel xx y c) (mkB t hc cr) =
      mkB { t with pix := (fun y' x' =>
        if y' = y ∧ x' ∈ xs ∧ bCond t hc cr x' y then blendResult t.format c (t.pix y x')
        else t.pix y' x') } hc cr := by
  induction xs generalizing t with
  | nil =>
    simp only [List.foldl_nil]
    conv_lhs => rw [show t = { t with pix := t.pix } from rfl]
    apply mkB_pix_congr
    intro y' x'
    simp
  | cons xx rest ih =>
    rw [List.foldl_cons, blendPixel_mkB]
    rw [ih _ (List.Nodup.of_cons hnd)]
    apply mkB_pix_congr
    intro y' x'
    have hnr : xx ∉ rest := (List.nodup_cons.mp hnd).1
    simp only [bCond_update, pix_update, List.mem_cons, eq_self_iff_true, true_and]
    by_cases hyy : y' = y
    · by_cases hmem : x' ∈ rest
      · have hne : x' ≠ xx := fun h => hnr (h ▸ hmem)
        by_cases hbc : bCond t hc cr x' y
        · rw [if_pos ⟨hyy, hmem, hbc⟩, if_neg (fun h => hne h.1),
            if_pos ⟨hyy, Or.inr hmem, hbc⟩]
        · rw [if_neg (fun h => hbc h.2.2), if_neg (fun h => hne h.2.1),
            if_neg (fun h => hbc h.2.2)]
      · rw [if_neg (fun h => hmem h.2.1)]
        by_cases hxx : x' = xx
        · by_cases hbc : bCond t hc cr xx y
          · rw [if_pos ⟨hyy, hxx, hbc⟩, if_pos ⟨hyy, Or.inl hxx, hxx ▸ hbc⟩, hxx]
          · rw [if_neg (fun h => hbc h.2.2), if_neg (fun h => hbc (hxx ▸ h.2.2))]
        · rw [if_neg (fun h => hxx h.2.1),
            if_neg (fun h => h.2.1.elim (fun he => hxx he) (fun he => hmem he))]
    · rw [if_neg (fun h => hyy h.1), if_neg (fun h => hyy h.1), if_neg (fun h => hyy h.1)]

theorem mkB_pix_noop (t : Pixmap) (hc : Bool) (cr : RectQ) (q : ℤ → ℤ → ℕ)
    (h : ∀ y' x', q y' x' = t.pix y' x') :
    mkB t hc cr = mkB { t with pix := q } hc cr := by
  conv_lhs => rw [show t = { t with pix := t.pix } from rfl]
  exact mkB_pix_congr t hc cr _ _ fun y x => (h y x).symm

/-- The set of pixels `drawHLine(x1, x2, y)` touches on row `y`: the span
clamped to the clip's x-range and the target width, on a valid target with
`y` inside bounds and the clip's y-range. -/
def hCond (t : Pixmap) (hc : Bool) (cr : RectQ) (x1 x2 y x' : ℤ) : Prop :=
  t.valid ∧ 0 ≤ y ∧ y < t.height ∧
  ratToI32 (mkB t hc cr).effectiveClip.y ≤ y ∧
  y < ratToI32 ((mkB t hc cr).effectiveClip.y + (mkB t hc cr).effectiveClip.h) ∧
  max (max x1 (ratToI32 (mkB t hc cr).effectiveClip.x)) 0 ≤ x' ∧
  x' ≤ min (min x2 (ratToI32 ((mkB t hc cr).effectiveClip.x +
    (mkB t hc cr).effectiveClip.w) - 1)) (t.width - 1)

instance (t : Pixmap) (hc : Bool) (cr : RectQ) (x1 x2 y x' : ℤ) :
    Decidable (hCond t hc cr x1 x2 y x') := by
  unfold hCond; infer_instance

theorem drawHLine_mkB (t : Pixmap) (hc : Bool) (cr : RectQ) (x1 x2 y : ℤ) (c : Color) :
    (mkB t hc cr).drawHLine x1 x2 y c =
      mkB { t with pix := (fun y' x' =>
        if y' = y ∧ hCond t hc cr x1 x2 y x' then blendResult t.format c (t.pix y x')
        else t.pix y' x') } hc cr := by
  show (if ¬ t.valid then mkB t hc cr
    else if y < 0 ∨ y ≥ t.height then mkB t hc cr
    else if y < ratToI32 (mkB t hc cr).effectiveClip.y ∨
        y ≥ ratToI32 ((mkB t hc cr).effectiveClip.y + (mkB t hc cr).effectiveClip.h)
      then mkB t hc cr
    else if max x1 (ratToI32 (mkB t hc cr).effectiveClip.x) >
        min x2 (ratToI32 ((mkB t hc cr).effectiveClip.x +
          (mkB t hc cr).effectiveClip.w) - 1)
      then mkB t hc cr
    else if c.a = 255 then
      mkB { t with pix := (writeRowFun t.pix y
        (intRange (max (max x1 (ratToI32 (mkB t hc cr).effectiveClip.x)) 0)
          (min (min x2 (ratToI32 ((mkB t hc cr).effectiveClip.x +
            (mkB t hc cr).effectiveClip.w) - 1)) (t.width - 1)))
        (packPixel t.format c)) } hc cr
    else
      (intRange (max (max x1 (ratToI32 (mkB t hc cr).effectiveClip.x)) 0)
        (min (min x2 (ratToI32 ((mkB t hc cr).effectiveClip.x +
          (mkB t hc cr).effectiveClip.w) - 1)) (t.width - 1))).foldl
        (fun st xx => st.blendPixel xx y c) (mkB t hc cr)) = _
  by_cases hv : t.valid
  · rw [if_neg (by simpa using hv)]
    by_cases hyb : y < 0 ∨ y ≥ t.height
    · rw [if_pos hyb]
      refine mkB_pix_noop t hc cr _ fun y' x' => if_neg ?_
      intro hcon
      obtain ⟨-, h2, h3, -⟩ := hcon.2
      omega
    · rw [if_neg hyb]
      by_cases hyc : y < ratToI32 (mkB t hc cr).effectiveClip.y ∨
          y ≥ ratToI32 ((mkB t hc cr).effectiveClip.y + (mkB t hc cr).effectiveClip.h)
      · rw [if_pos hyc]
        refine mkB_pix_noop t hc cr _ fun y' x' => if_neg ?_
        intro hcon
        obtain ⟨-, -, -, h4, h5, -⟩ := hcon.2
        omega
      · rw [if_neg hyc]
        by_cases hne : max x1 (ratToI32 (mkB t hc cr).effectiveClip.x) >
            min x2 (ratToI32 ((mkB t hc cr).effectiveClip.x +
              (mkB t hc cr).effectiveClip.w) - 1)
        · rw [if_pos hne]
          refine mkB_pix_noop t hc cr _ fun y' x' => if_neg ?_
          intro hcon
          obtain ⟨-, -, -, -, -, h6, h7⟩ := hcon.2
          omega
        · rw [if_neg hne]
          have hiff : ∀ x' : ℤ,
              (max (max x1 (ratToI32 (mkB t hc cr).effectiveClip.x)) 0 ≤ x' ∧
               x' ≤ min (min x2 (ratToI32 ((mkB t hc cr).effectiveClip.x +
                 (mkB t hc cr).effectiveClip.w) - 1)) (t.width - 1)) ↔
                hCond t hc cr x1 x2 y x' := by
            intro x'
            constructor
            · intro hx
              exact ⟨hv, by omega, by omega, by omega, by omega, hx.1, hx.2⟩
            · intro hcnd
              exact ⟨hcnd.2.2.2.2.2.1, hcnd.2.2.2.2.2.2⟩
          by_cases ha : c.a = 255
          · rw [if_pos ha]
            apply mkB_pix_congr
            intro y' x'
            simp only [writeRowFun_apply, mem_intRange]
            by_cases hcnd : y' = y ∧ hCond t hc cr x1 x2 y x'
            · rw [if_pos ⟨hcnd.1, (hiff x').mpr hcnd.2⟩, if_pos hcnd,
                packPixel_a255 t.format c ha]
              unfold blendResult
              rw [if_pos ha]
            · rw [if_neg (fun h => hcnd ⟨h.1, (hiff x').mp h.2⟩), if_neg hcnd]
          · rw [if_neg ha, rowBlendFold t hc cr y c _ (intRange_nodup _ _)]
            apply mkB_pix_congr
            intro y' x'
            simp only [mem_intRange]
            by_cases hcnd : y' = y ∧ hCond t hc cr x1 x2 y x'
            · have hx := (hiff x').mpr hcnd.2
              have hbc : bCond t hc cr x' y := by
                refine ⟨hv, by omega, by omega, by omega, by omega, ?_⟩
                intro hclip
                obtain ⟨-, -, -, -, -, h6, h7⟩ := hcnd.2
                unfold CpuBackend.isClipped at hclip
                omega
              rw [if_pos ⟨hcnd.1, hx, hbc⟩, if_pos hcnd]
            · rw [if_neg (fun h => hcnd ⟨h.1, (hiff x').mp h.2.1⟩), if_neg hcnd]
  · rw [if_pos (by simpa using hv)]
    refine mkB_pix_noop t hc cr _ fun y' x' => if_neg ?_
    intro hcon
    exact hv hcon.2.1

theorem hCond_update (t : Pixmap) (p : ℤ → ℤ → ℕ) (hc : Bool) (cr : RectQ)
    (x1 x2 y x' : ℤ) :
    hCond { t with pix := p } hc cr x1 x2 y x' = hCond t hc cr x1 x2 y x' := rfl

theorem rowsFoldHLine (t : Pixmap) (hc : Bool) (cr : RectQ) (xa xb : ℤ) (c : Color)
    (ys : List ℤ) (hnd : ys.Nodup) :
    ys.foldl (fun st yy => st.drawHLine xa xb yy c) (mkB t hc cr) =
      mkB { t with pix := (fun y' x' =>
        if y' ∈ ys ∧ hCond t hc cr xa xb y' x' then blendResult t.format c (t.pix y' x')
        else t.pix y' x') } hc cr := by
  induction ys generalizing t with
  | nil =>
    simp only [List.foldl_nil]
    conv_lhs => rw [show t = { t with pix := t.pix } from rfl]
    apply mkB_pix_congr
    intro y' x'
    simp
  | cons yy rest ih =>
    rw [List.foldl_cons, drawHLine_mkB]
    rw [ih _ (List.Nodup.of_cons hnd)]
    apply mkB_pix_congr
    intro y' x'
    have hnr : yy ∉ rest := (List.nodup_cons.mp hnd).1
    simp only [hCond_update, pix_update, List.mem_cons, eq_self_iff_true, true_and]
    by_cases hmem : y' ∈ rest
    · have hne : y' ≠ yy := fun h => hnr (h ▸ hmem)
      by_cases hcd : hCond t hc cr xa xb y' x'
      · rw [if_pos ⟨hmem, hcd⟩, if_neg (fun h => hne h.1), if_pos ⟨Or.inr hmem, hcd⟩]
      · rw [if_neg (fun h => hcd h.2), if_neg (fun h => hne h.1),
          if_neg (fun h => hcd h.2)]
    · rw [if_neg (fun h => hmem h.1)]
      by_cases hyy : y' = yy
      · by_cases hcd : hCond t hc cr xa xb yy x'
        · rw [if_pos ⟨hyy, hyy ▸ hcd⟩, if_pos ⟨Or.inl hyy, hyy ▸ hcd⟩, hyy]
        · rw [if_neg (fun h => hcd h.2), if_neg (fun h => hcd (hyy ▸ h.2))]
      · rw [if_neg (fun h => hyy h.1),
          if_neg (fun h => h.1.elim (fun he => hyy he) (fun he => hmem he))]

/-- The set of pixels `execFillRect(r)` fills: the rect truncated to `i32`,
intersected with the clip and the target bounds. -/
def fCond (t : Pixmap) (hc : Bool) (cr : RectQ) (r : RectQ) (y' x' : ℤ) : Prop :=
  t.valid ∧
  max (max (ratToI32 r.x) (ratToI32 (mkB t hc cr).effectiveClip.x)) 0 ≤ x' ∧
  x' < min (min (ratToI32 (r.x + r.w)) (ratToI32 ((mkB t hc cr).effectiveClip.x +
    (mkB t hc cr).effectiveClip.w))) t.width ∧
  max (max (ratToI32 r.y) (ratToI32 (mkB t hc cr).effectiveClip.y)) 0 ≤ y' ∧
  y' < min (min (ratToI32 (r.y + r.h)) (ratToI32 ((mkB t hc cr).effectiveClip.y +
    (mkB t hc cr).effectiveClip.h))) t.height

instance (t : Pixmap) (hc : Bool) (cr : RectQ) (r : RectQ) (y' x' : ℤ) :
    Decidable (fCond t hc cr r y' x') := by
  unfold fCond; infer_instance

theorem execFillRect_mkB (t : Pixmap) (hc : Bool) (cr : RectQ) (r : RectQ) (c : Color) :
    (mkB t hc cr).execFillRect r c =
      mkB { t with pix := (fun y' x' =>
        if fCond t hc cr r y' x' then blendResult t.format c (t.pix y' x')
        else t.pix y' x') } hc cr := by
  show (if ¬ t.valid then mkB t hc cr
    else if max (max (ratToI32 r.x) (ratToI32 (mkB t hc cr).effectiveClip.x)) 0 ≥
        min (min (ratToI32 (r.x + r.w)) (ratToI32 ((mkB t hc cr).effectiveClip.x +
          (mkB t hc cr).effectiveClip.w))) t.width ∨
        max (max (ratToI32 r.y) (ratToI32 (mkB t hc cr).effectiveClip.y)) 0 ≥
        min (min (ratToI32 (r.y + r.h)) (ratToI32 ((mkB t hc cr).effectiveClip.y +
          (mkB t hc cr).effectiveClip.h))) t.height
      then mkB t hc cr
    else (intRange (max (max (ratToI32 r.y) (ratToI32 (mkB t hc cr).effectiveClip.y)) 0)
        (min (min (ratToI32 (r.y + r.h)) (ratToI32 ((mkB t hc cr).effectiveClip.y +
          (mkB t hc cr).effectiveClip.h))) t.height - 1)).foldl
      (fun st yy => st.drawHLine
        (max (max (ratToI32 r.x) (ratToI32 (mkB t hc cr).effectiveClip.x)) 0)
        (min (min (ratToI32 (r.x + r.w)) (ratToI32 ((mkB t hc cr).effectiveClip.x +
          (mkB t hc cr).effectiveClip.w))) t.width - 1) yy c)
      (mkB t hc cr)) = _
  by_cases hv : t.valid
  · rw [if_neg (by simpa using hv)]
    by_cases hempty : max (max (ratToI32 r.x) (ratToI32 (mkB t hc cr).effectiveClip.x)) 0 ≥
        min (min (ratToI32 (r.x + r.w)) (ratToI32 ((mkB t hc cr).effectiveClip.x +
          (mkB t hc cr).effectiveClip.w))) t.width ∨
        max (max (ratToI32 r.y) (ratToI32 (mkB t hc cr).effectiveClip.y)) 0 ≥
        min (min (ratToI32 (r.y + r.h)) (ratToI32 ((mkB t hc cr).effectiveClip.y +
          (mkB t hc cr).effectiveClip.h))) t.height
    · rw [if_pos hempty]
      refine mkB_pix_noop t hc cr _ fun y' x' => if_neg ?_
      simp only [fCond, hv, true_and]
      omega
    · rw [if_neg hempty, rowsFoldHLine t hc cr _ _ c _ (intRange_nodup _ _)]
      apply mkB_pix_congr
      intro y' x'
      simp only [mem_intRange, fCond, hCond, hv, true_and]
      split_ifs with h1 h2
      · rfl
      · exfalso; omega
      · exfalso; omega
      · rfl
  · rw [if_pos (by simpa using hv)]
    refine mkB_pix_noop t hc cr _ fun y' x' => if_neg fun hcon => hv hcon.1

/-! ## Scenario S1: opaque red fill on a 4×4 BGRA surface (C4) -/

/-- Read one pixel word of the backend's target. -/
def CpuBackend.pixAt (b : CpuBackend) (y x : ℤ) : ℕ :=
  match b.target with
  | none => 0
  | some t => t.pix y x

/-- A 4×4 BGRA8888 raster target with arbitrary initial contents. -/
def pix4 (p0 : ℤ → ℤ → ℕ) : Pixmap := ⟨4, 4, PixelFormat.BGRA8888, true, p0⟩

/-- The backend `make_raster(4,4)` produces over `pix4` (no clip). -/
def b4 (p0 : ℤ → ℤ → ℕ) : CpuBackend := mkB (pix4 p0) false ⟨0, 0, 0, 0⟩

theorem b4_fillRect_cond (p0 : ℤ → ℤ → ℕ) (x y : ℤ) :
    fCond (pix4 p0) false ⟨0, 0, 0, 0⟩ ⟨0, 0, 4, 4⟩ y x ↔
      0 ≤ x ∧ x < 4 ∧ 0 ≤ y ∧ y < 4 := by
  have hval : (pix4 p0).valid := ⟨rfl, by norm_num [pix4], by norm_num [pix4]⟩
  have hclip : (mkB (pix4 p0) false ⟨0, 0, 0, 0⟩).effectiveClip =
      ⟨0, 0, ((4 : ℤ) : ℚ), ((4 : ℤ) : ℚ)⟩ := by
    show (if ¬ (pix4 p0).valid then (⟨0, 0, 0, 0⟩ : RectQ)
      else if (false : Bool) = true then (⟨0, 0, 0, 0⟩ : RectQ)
      else ⟨0, 0, ((pix4 p0).width : ℚ), ((pix4 p0).height : ℚ)⟩) = _
    rw [if_neg (by simpa using hval), if_neg (by norm_num)]
    rfl
  unfold fCond
  rw [hclip]
  norm_num [pix4, Pixmap.valid]

theorem b4_fillRect_pixAt (p0 : ℤ → ℤ → ℕ) (x y : ℤ) :
    ((b4 p0).execFillRect ⟨0, 0, 4, 4⟩ ⟨255, 0, 0, 255⟩).pixAt y x =
      if 0 ≤ x ∧ x < 4 ∧ 0 ≤ y ∧ y < 4 then 4294901760 else p0 y x := by
  show ((mkB (pix4 p0) false ⟨0, 0, 0, 0⟩).execFillRect ⟨0, 0, 4, 4⟩
    ⟨255, 0, 0, 255⟩).pixAt y x = _
  rw [execFillRect_mkB]
  show (if fCond (pix4 p0) false ⟨0, 0, 0, 0⟩ ⟨0, 0, 4, 4⟩ y x
      then blendResult (pix4 p0).format ⟨255, 0, 0, 255⟩ ((pix4 p0).pix y x)
      else (pix4 p0).pix y x) = _
  by_cases hb : 0 ≤ x ∧ x < 4 ∧ 0 ≤ y ∧ y < 4
  · rw [if_pos ((b4_fillRect_cond p0 x y).mpr hb), if_pos hb]
    show blendResult PixelFormat.BGRA8888 ⟨255, 0, 0, 255⟩ (p0 y x) = _
    unfold blendResult
    rw [if_pos rfl]
    rw [packFF_bgra_eq 255 0 0 (by norm_num) (by norm_num) (by norm_num)]
  · rw [if_neg (fun h => hb ((b4_fillRect_cond p0 x y).mp h)), if_neg hb]
    rfl

/-- **C4 (counterexample).** On the 4×4 BGRA surface, filling with opaque
red does *not* leave the literal word `0xFF0000FF` claimed by the spec:
pixel `(0,0)` holds `0xFFFF0000`. -/
theorem s1_fill_counterexample :
    ((b4 fun _ _ => 0).execFillRect ⟨0, 0, 4, 4⟩ ⟨255, 0, 0, 255⟩).pixAt 0 0 ≠ 0xFF0000FF := by
  rw [b4_fillRect_pixAt (fun _ _ => 0) 0 0]
  norm_num

/-- **C4 (amended).** On a 4×4 BGRA8888 raster surface, after
`fill_rect({0,0,4,4}, {255,0,0,255})` every one of the 16 target pixels
equals the u32 word `0xFFFF0000` (`A=FF, R=FF, G=00, B=00` stored as
`0xAARRGGBB`); pixels never touched keep their initial value. -/
theorem s1_fill_red_4x4 (p0 : ℤ → ℤ → ℕ) (x y : ℤ)
    (hx0 : 0 ≤ x) (hx1 : x < 4) (hy0 : 0 ≤ y) (hy1 : y < 4) :
    ((b4 p0).execFillRect ⟨0, 0, 4, 4⟩ ⟨255, 0, 0, 255⟩).pixAt y x = 0xFFFF0000 := by
  rw [b4_fillRect_pixAt p0 x y, if_pos ⟨hx0, hx1, hy0, hy1⟩]

/-- Witness for C4 at a concrete input. -/
theorem s1_fill_red_4x4_witness :
    (0 : ℤ) ≤ 2 ∧ (2 : ℤ) < 4 ∧ (0 : ℤ) ≤ 3 ∧ (3 : ℤ) < 4 ∧
    ((b4 fun _ _ => 7).execFillRect ⟨0, 0, 4, 4⟩ ⟨255, 0, 0, 255⟩).pixAt 3 2 = 0xFFFF0000 := by
  refine ⟨by norm_num, by norm_num, by norm_num, by norm_num, ?_⟩
  exact s1_fill_red_4x4 (fun _ _ => 7) 2 3 (by norm_num) (by norm_num) (by norm_num)
    (by norm_num)

/-! ## StrokeRect machinery (C6) -/

/-- The effect on one pixel word of the per-row pair
`blendPixel(x1, y); blendPixel(x2, y)` in `execStrokeRect`'s vertical loop:
apply the blend under `C1`, then again under `C2`. -/
def colStep (fmt : PixelFormat) (c : Color) (C1 C2 : Prop) [Decidable C1]
    [Decidable C2] (v : ℕ) : ℕ :=
  if C2 then blendResult fmt c (if C1 then blendResult fmt c v else v)
  else if C1 then blendResult fmt c v else v

theorem colBlendFold (t : Pixmap) (hc : Bool) (cr : RectQ) (x1 x2 : ℤ) (c : Color)
    (ys : List ℤ) (hnd : ys.Nodup) :
    ys.foldl (fun st yy => (st.blendPixel x1 yy c).blendPixel x2 yy c) (mkB t hc cr) =
      mkB { t with pix := (fun y' x' =>
        if y' ∈ ys then
          colStep t.format c (x' = x1 ∧ bCond t hc cr x1 y') (x' = x2 ∧ bCond t hc cr x2 y')
            (t.pix y' x')
        else t.pix y' x') } hc cr := by
  induction ys generalizing t with
  | nil =>
    simp only [List.foldl_nil]
    conv_lhs => rw [show t = { t with pix := t.pix } from rfl]
    apply mkB_pix_congr
    intro y' x'
    simp
  | cons yy rest ih =>
    rw [List.foldl_cons, blendPixel_mkB, blendPixel_mkB]
    rw [ih _ (List.Nodup.of_cons hnd)]
    apply mkB_pix_congr
    intro y' x'
    have hnr : yy ∉ rest := (List.nodup_cons.mp hnd).1
    simp only [bCond_update, pix_update, List.mem_cons, eq_self_iff_true, true_and]
    by_cases hmem : y' ∈ rest
    · have hne : y' ≠ yy := fun h => hnr (h ▸ hmem)
      rw [if_pos hmem, if_pos (Or.inr hmem), if_neg (fun h => hne h.1),
        if_neg (fun h => hne h.1)]
    · rw [if_neg hmem]
      by_cases hy : y' = yy
      · rw [if_pos (Or.inl hy)]
        unfold colStep
        by_cases hc2 : x' = x2 ∧ bCond t hc cr x2 y'
        · rw [if_pos ⟨hy, hc2.1, hy ▸ hc2.2⟩, if_pos hc2]
          congr 1
          by_cases hc1 : x2 = x1 ∧ bCond t hc cr x1 yy
          · rw [if_pos hc1, if_pos ⟨hc2.1.trans hc1.1, hy.symm ▸ hc1.2⟩,
              hy, hc2.1, hc1.1]
          · rw [if_neg hc1, if_neg (fun h => hc1 ⟨hc2.1.symm.trans h.1, hy ▸ h.2⟩),
              hy, hc2.1]
        · rw [if_neg (fun h => hc2 ⟨h.2.1, hy.symm ▸ h.2.2⟩), if_neg hc2]
          by_cases hc1 : x' = x1 ∧ bCond t hc cr x1 y'
          · rw [if_pos ⟨hy, hc1.1, hy ▸ hc1.2⟩, if_pos hc1, hy, hc1.1]
          · rw [if_neg (fun h => hc1 ⟨h.2.1, hy.symm ▸ h.2.2⟩), if_neg hc1]
      · have hno : ¬ (y' = yy ∨ y' ∈ rest) := fun h => h.elim hy hmem
        rw [if_neg hno, if_neg (fun h => hy h.1), if_neg (fun h => hy h.1)]

@[simp] theorem format_update (t : Pixmap) (p : ℤ → ℤ → ℕ) :
    ({ t with pix := p } : Pixmap).format = t.format := rfl

/-- The per-pixel effect of `execStrokeRect(r, c, w)`: the top edge row, the
bottom edge row, then the left/right columns, each blending under its own
guard. -/
def strokePixel (t : Pixmap) (hc : Bool) (cr : RectQ) (r : RectQ) (c : Color)
    (y' x' : ℤ) : ℕ :=
  let X1 := ratToI32 r.x
  let Y1 := ratToI32 r.y
  let X2 := ratToI32 (r.x + r.w)
  let Y2 := ratToI32 (r.y + r.h)
  let v1 := if y' = Y1 ∧ hCond t hc cr X1 X2 Y1 x'
    then blendResult t.format c (t.pix y' x') else t.pix y' x'
  let v2 := if y' = Y2 ∧ hCond t hc cr X1 X2 Y2 x'
    then blendResult t.format c v1 else v1
  if Y1 ≤ y' ∧ y' ≤ Y2 then
    colStep t.format c (x' = X1 ∧ bCond t hc cr X1 y') (x' = X2 ∧ bCond t hc cr X2 y') v2
  else v2

theorem execStrokeRect_mkB (t : Pixmap) (hc : Bool) (cr : RectQ) (r : RectQ)
    (c : Color) (w : ℚ) :
    (mkB t hc cr).execStrokeRect r c w =
      mkB { t with pix := (fun y' x' => strokePixel t hc cr r c y' x') } hc cr := by
  by_cases hv : t.valid
  · show (if ¬ t.valid then mkB t hc cr
      else (intRange (ratToI32 r.y) (ratToI32 (r.y + r.h))).foldl
        (fun st yy => (st.blendPixel (ratToI32 r.x) yy c).blendPixel
          (ratToI32 (r.x + r.w)) yy c)
        (((mkB t hc cr).drawHLine (ratToI32 r.x) (ratToI32 (r.x + r.w))
            (ratToI32 r.y) c).drawHLine (ratToI32 r.x) (ratToI32 (r.x + r.w))
          (ratToI32 (r.y + r.h)) c)) = _
    rw [if_neg (by simpa using hv)]
    rw [drawHLine_mkB, drawHLine_mkB, colBlendFold _ _ _ _ _ _ _ (intRange_nodup _ _)]
    apply mkB_pix_congr
    intro y' x'
    simp only [hCond_update, bCond_update, pix_update, format_update, mem_intRange]
    unfold strokePixel
    simp only
    have hpb : (if y' = ratToI32 (r.y + r.h) ∧
          hCond t hc cr (ratToI32 r.x) (ratToI32 (r.x + r.w)) (ratToI32 (r.y + r.h)) x'
        then blendResult t.format c
          (if ratToI32 (r.y + r.h) = ratToI32 r.y ∧
              hCond t hc cr (ratToI32 r.x) (ratToI32 (r.x + r.w)) (ratToI32 r.y) x'
           then blendResult t.format c (t.pix (ratToI32 r.y) x')
           else t.pix (ratToI32 (r.y + r.h)) x')
        else if y' = ratToI32 r.y ∧
            hCond t hc cr (ratToI32 r.x) (ratToI32 (r.x + r.w)) (ratToI32 r.y) x'
          then blendResult t.format c (t.pix (ratToI32 r.y) x')
          else t.pix y' x') =
        (if y' = ratToI32 (r.y + r.h) ∧
            hCond t hc cr (ratToI32 r.x) (ratToI32 (r.x + r.w)) (ratToI32 (r.y + r.h)) x'
         then blendResult t.format c
           (if y' = ratToI32 r.y ∧
               hCond t hc cr (ratToI32 r.x) (ratToI32 (r.x + r.w)) (ratToI32 r.y) x'
            then blendResult t.format c (t.pix y' x') else t.pix y' x')
         else if y' = ratToI32 r.y ∧
             hCond t hc cr (ratToI32 r.x) (ratToI32 (r.x + r.w)) (ratToI32 r.y) x'
           then blendResult t.format c (t.pix y' x') else t.pix y' x') := by
      by_cases h2 : y' = ratToI32 (r.y + r.h) ∧
          hCond t hc cr (ratToI32 r.x) (ratToI32 (r.x + r.w)) (ratToI32 (r.y + r.h)) x'
      · rw [if_pos h2, if_pos h2]
        congr 1
        by_cases h1 : y' = ratToI32 r.y ∧
            hCond t hc cr (ratToI32 r.x) (ratToI32 (r.x + r.w)) (ratToI32 r.y) x'
        · rw [if_pos (h2.1 ▸ h1), if_pos h1, h1.1]
        · rw [if_neg (fun h => h1 ⟨h2.1.trans h.1, h.2⟩), if_neg h1, h2.1]
      · rw [if_neg h2, if_neg h2]
        by_cases h1 : y' = ratToI32 r.y ∧
            hCond t hc cr (ratToI32 r.x) (ratToI32 (r.x + r.w)) (ratToI32 r.y) x'
        · rw [if_pos h1, if_pos h1, h1.1]
        · rw [if_neg h1, if_neg h1]
    rw [hpb]
  · show (if ¬ t.valid then mkB t hc cr else _) = _
    rw [if_pos (by simpa using hv)]
    refine mkB_pix_noop t hc cr _ fun y' x' => ?_
    unfold strokePixel colStep
    simp only
    rw [if_neg (fun h : _ ∧ hCond t hc cr _ _ _ _ => hv h.2.1)]
    rw [if_neg (fun h : _ ∧ hCond t hc cr _ _ _ _ => hv h.2.1)]
    rw [if_neg (fun h : _ ∧ bCond t hc cr _ _ => hv h.2.1)]
    rw [if_neg (fun h : _ ∧ bCond t hc cr _ _ => hv h.2.1)]
    rw [ite_self]

theorem fCond_update (t : Pixmap) (p : ℤ → ℤ → ℕ) (hc : Bool) (cr : RectQ)
    (r : RectQ) (y' x' : ℤ) :
    fCond { t with pix := p } hc cr r y' x' = fCond t hc cr r y' x' := rfl

theorem range_colStep_chain (fmt : PixelFormat) (c : Color) (R C1 C2 : Prop)
    [Decidable R] [Decidable C1] [Decidable C2] (v : ℕ) :
    (if R then colStep fmt c C1 C2 v else v) =
      (if R ∧ C2 then blendResult fmt c (if R ∧ C1 then blendResult fmt c v else v)
       else if R ∧ C1 then blendResult fmt c v else v) := by
  by_cases hR : R
  · rw [if_pos hR]
    unfold colStep
    by_cases h2 : C2
    · have hrc2 : R ∧ C2 := ⟨hR, h2⟩
      rw [if_pos h2, if_pos hrc2]
      by_cases h1 : C1
      · have hrc1 : R ∧ C1 := ⟨hR, h1⟩
        rw [if_pos h1, if_pos hrc1]
      · have hn1 : ¬(R ∧ C1) := fun h => h1 h.2
        rw [if_neg h1, if_neg hn1]
    · have hn2 : ¬(R ∧ C2) := fun h => h2 h.2
      rw [if_neg h2, if_neg hn2]
      by_cases h1 : C1
      · have hrc1 : R ∧ C1 := ⟨hR, h1⟩
        rw [if_pos h1, if_pos hrc1]
      · have hn1 : ¬(R ∧ C1) := fun h => h1 h.2
        rw [if_neg h1, if_neg hn1]
  · have hn2 : ¬(R ∧ C2) := fun h => hR h.1
    have hn1 : ¬(R ∧ C1) := fun h => hR h.1
    rw [if_neg hR, if_neg hn2, if_neg hn1]

/-- `fCond` of a rect whose four fields are integer casts, in closed
arithmetic form. -/
theorem fCond_intRect (t : Pixmap) (hc : Bool) (cr : RectQ) (a b p q : ℤ)
    (y' x' : ℤ) :
    fCond t hc cr ⟨(a : ℚ), (b : ℚ), ((p : ℤ) : ℚ), ((q : ℤ) : ℚ)⟩ y' x' ↔
      t.valid ∧
      max (max a (ratToI32 (mkB t hc cr).effectiveClip.x)) 0 ≤ x' ∧
      x' < min (min (a + p) (ratToI32 ((mkB t hc cr).effectiveClip.x +
        (mkB t hc cr).effectiveClip.w))) t.width ∧
      max (max b (ratToI32 (mkB t hc cr).effectiveClip.y)) 0 ≤ y' ∧
      y' < min (min (b + q) (ratToI32 ((mkB t hc cr).effectiveClip.y +
        (mkB t hc cr).effectiveClip.h))) t.height := by
  unfold fCond
  have h1 : ratToI32 ((⟨(a : ℚ), (b : ℚ), ((p : ℤ) : ℚ), ((q : ℤ) : ℚ)⟩ : RectQ).x) = a :=
    ratToI32_intCast a
  have h2 : ratToI32 ((⟨(a : ℚ), (b : ℚ), ((p : ℤ) : ℚ), ((q : ℤ) : ℚ)⟩ : RectQ).x +
      (⟨(a : ℚ), (b : ℚ), ((p : ℤ) : ℚ), ((q : ℤ) : ℚ)⟩ : RectQ).w) = a + p := by
    show ratToI32 ((a : ℚ) + (p : ℚ)) = a + p
    rw [show ((a : ℚ) + (p : ℚ)) = (((a + p : ℤ)) : ℚ) by push_cast; ring]
    exact ratToI32_intCast _
  have h3 : ratToI32 ((⟨(a : ℚ), (b : ℚ), ((p : ℤ) : ℚ), ((q : ℤ) : ℚ)⟩ : RectQ).y) = b :=
    ratToI32_intCast b
  have h4 : ratToI32 ((⟨(a : ℚ), (b : ℚ), ((p : ℤ) : ℚ), ((q : ℤ) : ℚ)⟩ : RectQ).y +
      (⟨(a : ℚ), (b : ℚ), ((p : ℤ) : ℚ), ((q : ℤ) : ℚ)⟩ : RectQ).h) = b + q := by
    show ratToI32 ((b : ℚ) + (q : ℚ)) = b + q
    rw [show ((b : ℚ) + (q : ℚ)) = (((b + q : ℤ)) : ℚ) by push_cast; ring]
    exact ratToI32_intCast _
  rw [h1, h2, h3, h4]

/-- `execFillRect` on a pixel-updated canonical state, with the frame
expressed over the original pixmap. -/
theorem execFillRect_mkB_pix (t : Pixmap) (p : ℤ → ℤ → ℕ) (hc : Bool) (cr : RectQ)
    (r : RectQ) (c : Color) :
    (mkB { t with pix := p } hc cr).execFillRect r c =
      mkB { t with pix := (fun y' x' =>
        if fCond t hc cr r y' x' then blendResult t.format c (p y' x')
        else p y' x') } hc cr := by
  rw [execFillRect_mkB]
  rfl

/-- Modelled from the spec: `StrokeRect(r, c, w)` read literally as four
fill rectangles of thickness `w` along the edges of `r` (top, bottom, left,
right), to be compared with the code's `execStrokeRect`. -/
def strokeRectFillsW (b : CpuBackend) (r : RectQ) (c : Color) (w : ℚ) : CpuBackend :=
  ((((b.execFillRect ⟨r.x, r.y, r.w, w⟩ c).execFillRect
      ⟨r.x, r.y + r.h - w, r.w, w⟩ c).execFillRect
      ⟨r.x, r.y, w, r.h⟩ c).execFillRect
      ⟨r.x + r.w - w, r.y, w, r.h⟩ c)

/-- The four one-pixel-thick fill rectangles `execStrokeRect` is equivalent
to: the rows `Y1` and `Y2` across `[X1, X2]` and the columns `X1` and `X2`
across `[Y1, Y2]`, at the truncated integer coordinates `X1 = i32(r.x)`,
`Y1 = i32(r.y)`, `X2 = i32(r.x + r.w)`, `Y2 = i32(r.y + r.h)` the stroke
code uses. -/
def strokeRectAsFourFills (b : CpuBackend) (r : RectQ) (c : Color) : CpuBackend :=
  ((((b.execFillRect
      ⟨((ratToI32 r.x : ℤ) : ℚ), ((ratToI32 r.y : ℤ) : ℚ),
        ((ratToI32 (r.x + r.w) - ratToI32 r.x + 1 : ℤ) : ℚ), ((1 : ℤ) : ℚ)⟩ c).execFillRect
      ⟨((ratToI32 r.x : ℤ) : ℚ), ((ratToI32 (r.y + r.h) : ℤ) : ℚ),
        ((ratToI32 (r.x + r.w) - ratToI32 r.x + 1 : ℤ) : ℚ), ((1 : ℤ) : ℚ)⟩ c).execFillRect
      ⟨((ratToI32 r.x : ℤ) : ℚ), ((ratToI32 r.y : ℤ) : ℚ), ((1 : ℤ) : ℚ),
        ((ratToI32 (r.y + r.h) - ratToI32 r.y + 1 : ℤ) : ℚ)⟩ c).execFillRect
      ⟨((ratToI32 (r.x + r.w) : ℤ) : ℚ), ((ratToI32 r.y : ℤ) : ℚ), ((1 : ℤ) : ℚ),
        ((ratToI32 (r.y + r.h) - ratToI32 r.y + 1 : ℤ) : ℚ)⟩ c)

theorem strokeTop_cond (t : Pixmap) (hc : Bool) (cr : RectQ) (r : RectQ) (y' x' : ℤ) :
    fCond t hc cr ⟨((ratToI32 r.x : ℤ) : ℚ), ((ratToI32 r.y : ℤ) : ℚ),
        ((ratToI32 (r.x + r.w) - ratToI32 r.x + 1 : ℤ) : ℚ), ((1 : ℤ) : ℚ)⟩ y' x' ↔
      y' = ratToI32 r.y ∧
        hCond t hc cr (ratToI32 r.x) (ratToI32 (r.x + r.w)) (ratToI32 r.y) x' := by
  rw [fCond_intRect]
  unfold hCond
  constructor
  · rintro ⟨hval, a1, a2, a3, a4⟩
    exact ⟨by omega, hval, by omega, by omega, by omega, by omega, by omega, by omega⟩
  · rintro ⟨hy, hval, b1, b2, b3, b4, b5, b6⟩
    exact ⟨hval, by omega, by omega, by omega, by omega⟩

theorem strokeBot_cond (t : Pixmap) (hc : Bool) (cr : RectQ) (r : RectQ) (y' x' : ℤ) :
    fCond t hc cr ⟨((ratToI32 r.x : ℤ) : ℚ), ((ratToI32 (r.y + r.h) : ℤ) : ℚ),
        ((ratToI32 (r.x + r.w) - ratToI32 r.x + 1 : ℤ) : ℚ), ((1 : ℤ) : ℚ)⟩ y' x' ↔
      y' = ratToI32 (r.y + r.h) ∧
        hCond t hc cr (ratToI32 r.x) (ratToI32 (r.x + r.w)) (ratToI32 (r.y + r.h)) x' := by
  rw [fCond_intRect]
  unfold hCond
  constructor
  · rintro ⟨hval, a1, a2, a3, a4⟩
    exact ⟨by omega, hval, by omega, by omega, by omega, by omega, by omega, by omega⟩
  · rintro ⟨hy, hval, b1, b2, b3, b4, b5, b6⟩
    exact ⟨hval, by omega, by omega, by omega, by omega⟩

theorem strokeLeft_cond (t : Pixmap) (hc : Bool) (cr : RectQ) (r : RectQ) (y' x' : ℤ) :
    fCond t hc cr ⟨((ratToI32 r.x : ℤ) : ℚ), ((ratToI32 r.y : ℤ) : ℚ), ((1 : ℤ) : ℚ),
        ((ratToI32 (r.y + r.h) - ratToI32 r.y + 1 : ℤ) : ℚ)⟩ y' x' ↔
      (ratToI32 r.y ≤ y' ∧ y' ≤ ratToI32 (r.y + r.h)) ∧
        (x' = ratToI32 r.x ∧ bCond t hc cr (ratToI32 r.x) y') := by
  rw [fCond_intRect]
  unfold bCond CpuBackend.isClipped
  constructor
  · rintro ⟨hval, a1, a2, a3, a4⟩
    exact ⟨⟨by omega, by omega⟩, by omega, hval, by omega, by omega, by omega, by omega,
      by omega⟩
  · rintro ⟨⟨hy1, hy2⟩, hx, hval, b1, b2, b3, b4, hncl⟩
    exact ⟨hval, by omega, by omega, by omega, by omega⟩

theorem strokeRight_cond (t : Pixmap) (hc : Bool) (cr : RectQ) (r : RectQ) (y' x' : ℤ) :
    fCond t hc cr ⟨((ratToI32 (r.x + r.w) : ℤ) : ℚ), ((ratToI32 r.y : ℤ) : ℚ),
        ((1 : ℤ) : ℚ), ((ratToI32 (r.y + r.h) - ratToI32 r.y + 1 : ℤ) : ℚ)⟩ y' x' ↔
      (ratToI32 r.y ≤ y' ∧ y' ≤ ratToI32 (r.y + r.h)) ∧
        (x' = ratToI32 (r.x + r.w) ∧ bCond t hc cr (ratToI32 (r.x + r.w)) y') := by
  rw [fCond_intRect]
  unfold bCond CpuBackend.isClipped
  constructor
  · rintro ⟨hval, a1, a2, a3, a4⟩
    exact ⟨⟨by omega, by omega⟩, by omega, hval, by omega, by omega, by omega, by omega,
      by omega⟩
  · rintro ⟨⟨hy1, hy2⟩, hx, hval, b1, b2, b3, b4, hncl⟩
    exact ⟨hval, by omega, by omega, by omega, by omega⟩

/-- C6 (amended): for every StrokeRect op with rect `r`, color `c` and width
`w` executed by the CPU backend, the `f32` width argument is ignored (the
parameter is unnamed in the source), and the effect on the target equals
emitting four fill rectangles of thickness one pixel covering the top,
bottom, left and right edge strokes of `r`, at the truncated integer edge
coordinates `i32(r.x)`, `i32(r.y)`, `i32(r.x + r.w)`, `i32(r.y + r.h)`. -/
theorem cpu_strokeRect_eq_four_fills (b : CpuBackend) (r : RectQ) (c : Color) (w : ℚ) :
    b.execStrokeRect r c w = strokeRectAsFourFills b r c := by
  obtain ⟨tgt, hc, cr⟩ := b
  cases tgt with
  | none => rfl
  | some t =>
    show (mkB t hc cr).execStrokeRect r c w = strokeRectAsFourFills (mkB t hc cr) r c
    rw [execStrokeRect_mkB]
    unfold strokeRectAsFourFills
    rw [execFillRect_mkB, execFillRect_mkB_pix, execFillRect_mkB_pix, execFillRect_mkB_pix]
    apply mkB_pix_congr
    intro y' x'
    unfold strokePixel
    simp only
    rw [range_colStep_chain]
    simp only [strokeTop_cond, strokeBot_cond, strokeLeft_cond, strokeRight_cond]

theorem pixAt_mkB (t : Pixmap) (hc : Bool) (cr : RectQ) (y x : ℤ) :
    (mkB t hc cr).pixAt y x = t.pix y x := rfl

/-- Blending opaque red into any BGRA8888 word yields `0xFFFF0000`. -/
theorem blendResult_red (v : ℕ) :
    blendResult PixelFormat.BGRA8888 ⟨255, 0, 0, 255⟩ v = 4294901760 := by
  unfold blendResult
  rw [if_pos rfl, packFF_bgra_eq 255 0 0 (by norm_num) (by norm_num) (by norm_num)]

/-- An 8×8 BGRA8888 raster target with arbitrary initial contents. -/
def pix8 (p0 : ℤ → ℤ → ℕ) : Pixmap := ⟨8, 8, PixelFormat.BGRA8888, true, p0⟩

/-- The backend `make_raster(8,8)` produces over `pix8` (no clip). -/
def b8 (p0 : ℤ → ℤ → ℕ) : CpuBackend := mkB (pix8 p0) false ⟨0, 0, 0, 0⟩

theorem b8_fCond (p0 : ℤ → ℤ → ℕ) (r : RectQ) (y x : ℤ) :
    fCond (pix8 p0) false ⟨0, 0, 0, 0⟩ r y x ↔
      max (max (ratToI32 r.x) 0) 0 ≤ x ∧ x < min (min (ratToI32 (r.x + r.w)) 8) 8 ∧
      max (max (ratToI32 r.y) 0) 0 ≤ y ∧ y < min (min (ratToI32 (r.y + r.h)) 8) 8 := by
  have hval : (pix8 p0).valid := ⟨rfl, by norm_num [pix8], by norm_num [pix8]⟩
  have hclip : (mkB (pix8 p0) false ⟨0, 0, 0, 0⟩).effectiveClip =
      ⟨0, 0, ((8 : ℤ) : ℚ), ((8 : ℤ) : ℚ)⟩ := by
    show (if ¬ (pix8 p0).valid then (⟨0, 0, 0, 0⟩ : RectQ)
      else if (false : Bool) = true then (⟨0, 0, 0, 0⟩ : RectQ)
      else ⟨0, 0, ((pix8 p0).width : ℚ), ((pix8 p0).height : ℚ)⟩) = _
    rw [if_neg (by simpa using hval), if_neg (by norm_num)]
    rfl
  unfold fCond
  rw [hclip]
  norm_num [pix8, Pixmap.valid]

/-- `execStrokeRect({0,0,6,6}, red, 2)` on the 8×8 target leaves pixel
`(1,1)` untouched: the code strokes one-pixel edges only. -/
theorem b8_stroke_pixAt11 (p0 : ℤ → ℤ → ℕ) :
    ((b8 p0).execStrokeRect ⟨0, 0, 6, 6⟩ ⟨255, 0, 0, 255⟩ 2).pixAt 1 1 = p0 1 1 := by
  unfold b8
  rw [execStrokeRect_mkB, pixAt_mkB]
  simp only [pix_update]
  unfold strokePixel
  simp only
  have hx : ratToI32 ((⟨0, 0, 6, 6⟩ : RectQ).x) = 0 := by norm_num
  have hy : ratToI32 ((⟨0, 0, 6, 6⟩ : RectQ).y) = 0 := by norm_num
  have hxw : ratToI32 ((⟨0, 0, 6, 6⟩ : RectQ).x + (⟨0, 0, 6, 6⟩ : RectQ).w) = 6 := by
    norm_num
  have hyh : ratToI32 ((⟨0, 0, 6, 6⟩ : RectQ).y + (⟨0, 0, 6, 6⟩ : RectQ).h) = 6 := by
    norm_num
  simp only [hx, hy, hxw, hyh]
  norm_num [colStep, pix8]

/-- The claim's four thickness-2 fill rectangles paint pixel `(1,1)` opaque
red: it lies inside both the top and the left stroke. -/
theorem b8_strokeW_pixAt11 (p0 : ℤ → ℤ → ℕ) :
    (strokeRectFillsW (b8 p0) ⟨0, 0, 6, 6⟩ ⟨255, 0, 0, 255⟩ 2).pixAt 1 1 = 4294901760 := by
  unfold b8 strokeRectFillsW
  rw [execFillRect_mkB, execFillRect_mkB_pix, execFillRect_mkB_pix, execFillRect_mkB_pix,
    pixAt_mkB]
  simp only [pix_update]
  simp only [b8_fCond]
  have e1 : ratToI32 (0 : ℚ) = 0 := by norm_num
  have e2 : ratToI32 ((0 : ℚ) + 6) = 6 := by norm_num
  have e3 : ratToI32 ((0 : ℚ) + 2) = 2 := by norm_num
  have e4 : ratToI32 ((0 : ℚ) + 6 - 2) = 4 := by norm_num
  have e5 : ratToI32 ((0 : ℚ) + 6 - 2 + 2) = 6 := by norm_num
  simp only [e1, e2, e3, e4, e5, pix8]
  have hR : ¬((4 : ℤ) ⊔ 0 ⊔ 0 ≤ 1 ∧ (1 : ℤ) < 6 ⊓ 8 ⊓ 8 ∧
      (0 : ℤ) ⊔ 0 ⊔ 0 ≤ 1 ∧ (1 : ℤ) < 6 ⊓ 8 ⊓ 8) := by omega
  have hB : ¬((0 : ℤ) ⊔ 0 ⊔ 0 ≤ 1 ∧ (1 : ℤ) < 6 ⊓ 8 ⊓ 8 ∧
      (4 : ℤ) ⊔ 0 ⊔ 0 ≤ 1 ∧ (1 : ℤ) < 6 ⊓ 8 ⊓ 8) := by omega
  have hL : (0 : ℤ) ⊔ 0 ⊔ 0 ≤ 1 ∧ (1 : ℤ) < 2 ⊓ 8 ⊓ 8 ∧
      (0 : ℤ) ⊔ 0 ⊔ 0 ≤ 1 ∧ (1 : ℤ) < 6 ⊓ 8 ⊓ 8 := by omega
  have hT : (0 : ℤ) ⊔ 0 ⊔ 0 ≤ 1 ∧ (1 : ℤ) < 6 ⊓ 8 ⊓ 8 ∧
      (0 : ℤ) ⊔ 0 ⊔ 0 ≤ 1 ∧ (1 : ℤ) < 2 ⊓ 8 ⊓ 8 := by omega
  rw [if_neg hR, if_pos hL, if_neg hB, if_pos hT, blendResult_red]

/-- **C6 (counterexample).** `execStrokeRect({0,0,6,6}, red, w=2)` on an 8×8
target is *not* the four thickness-`w` fill rectangles the claim describes:
the code ignores the width and strokes one-pixel edges, leaving pixel
`(1,1)` untouched where the thickness-2 reading paints it opaque red. -/
theorem cpu_strokeRect_counterexample :
    ((b8 fun _ _ => 0).execStrokeRect ⟨0, 0, 6, 6⟩ ⟨255, 0, 0, 255⟩ 2).pixAt 1 1 ≠
      (strokeRectFillsW (b8 fun _ _ => 0) ⟨0, 0, 6, 6⟩ ⟨255, 0, 0, 255⟩ 2).pixAt 1 1 := by
  rw [b8_stroke_pixAt11, b8_strokeW_pixAt11]
  norm_num

theorem getLast?_cons_eq {α : Type} (p q : α) (L : List α) (h : L.getLast? = some q) :
    (p :: L).getLast? = some q := by
  cases L with
  | nil => simp at h
  | cons b l => rw [List.getLast?_cons_cons]; exact h

/-- The Bresenham loop of `drawLineImpl`, run with enough fuel from any state
on the walk, ends exactly at `(x2, y2)`: the `while (true)` loop terminates at
the endpoint.  The invariant ties `err` to the remaining distances
`u = sx·(x2−x)` and `v = sy·(y2−y)`. -/
theorem bresLoop_last :
    ∀ (fuel : ℕ) (x y x2 y2 a b sx sy err : ℤ),
      0 ≤ a → 0 ≤ b →
      sx = 1 ∨ sx = -1 → (sy = 1 ∨ sy = -1) →
      0 ≤ sx * (x2 - x) → sx * (x2 - x) ≤ a →
      0 ≤ sy * (y2 - y) → sy * (y2 - y) ≤ b →
      err = a - b - b * (a - sx * (x2 - x)) + a * (b - sy * (y2 - y)) →
      sx * (x2 - x) + sy * (y2 - y) < (fuel : ℤ) →
      (bresLoop fuel x y x2 y2 a b sx sy err).getLast? = some (x2, y2) := by
  intro fuel
  induction fuel with
  | zero =>
    intro x y x2 y2 a b sx sy err ha hb hsx hsy hu0 hua hv0 hvb herr hfuel
    exfalso
    push_cast at hfuel
    linarith
  | succ n ih =>
    intro x y x2 y2 a b sx sy err ha hb hsx hsy hu0 hua hv0 hvb herr hfuel
    have hsx2 : sx * sx = 1 := by rcases hsx with h | h <;> rw [h] <;> ring
    have hsy2 : sy * sy = 1 := by rcases hsy with h | h <;> rw [h] <;> ring
    show ((x, y) :: (if x = x2 ∧ y = y2 then []
        else bresLoop n (if 2 * err > -b then x + sx else x)
          (if 2 * err < a then y + sy else y) x2 y2 a b sx sy
          (if 2 * err < a then (if 2 * err > -b then err - b else err) + a
           else (if 2 * err > -b then err - b else err)))).getLast? = some (x2, y2)
    by_cases hend : x = x2 ∧ y = y2
    · rw [if_pos hend, hend.1, hend.2]
      rfl
    · rw [if_neg hend]
      have hne : 0 < sx * (x2 - x) + sy * (y2 - y) := by
        rcases lt_or_eq_of_le hu0 with hu | hu
        · linarith
        · rcases lt_or_eq_of_le hv0 with hv | hv
          · linarith
          · exfalso
            apply hend
            constructor
            · rcases hsx with h | h <;> rw [h] at hu <;> omega
            · rcases hsy with h | h <;> rw [h] at hv <;> omega
      apply getLast?_cons_eq
      have hu' : sx * (x2 - (x + sx)) = sx * (x2 - x) - 1 := by
        have hh : sx * (x2 - (x + sx)) = sx * (x2 - x) - sx * sx := by ring
        rw [hh, hsx2]
      have hv' : sy * (y2 - (y + sy)) = sy * (y2 - y) - 1 := by
        have hh : sy * (y2 - (y + sy)) = sy * (y2 - y) - sy * sy := by ring
        rw [hh, hsy2]
      by_cases hxg : 2 * err > -b
      · have hu1 : 1 ≤ sx * (x2 - x) := by
          by_contra hcon
          have hu_eq : sx * (x2 - x) = 0 := by linarith
          have herr2 : err = a - b - a * (sy * (y2 - y)) := by rw [herr, hu_eq]; ring
          have hv1 : 1 ≤ sy * (y2 - y) := by
            rw [hu_eq] at hne
            linarith
          have hav : a ≤ a * (sy * (y2 - y)) := by
            calc a = a * 1 := by ring
            _ ≤ a * (sy * (y2 - y)) := mul_le_mul_of_nonneg_left hv1 ha
          linarith
        by_cases hyg : 2 * err < a
        · have hv1 : 1 ≤ sy * (y2 - y) := by
            by_contra hcon
            have hv_eq : sy * (y2 - y) = 0 := by linarith
            have herr2 : err = a - b + b * (sx * (x2 - x)) := by rw [herr, hv_eq]; ring
            have hbu : b ≤ b * (sx * (x2 - x)) := by
              calc b = b * 1 := by ring
              _ ≤ b * (sx * (x2 - x)) := mul_le_mul_of_nonneg_left hu1 hb
            linarith
          simp only [if_pos hxg, if_pos hyg]
          apply ih
          · exact ha
          · exact hb
          · exact hsx
          · exact hsy
          · rw [hu']; linarith
          · rw [hu']; linarith
          · rw [hv']; linarith
          · rw [hv']; linarith
          · rw [hu', hv', herr]; ring
          · rw [hu', hv']; push_cast at hfuel ⊢; linarith
        · simp only [if_pos hxg, if_neg hyg]
          apply ih
          · exact ha
          · exact hb
          · exact hsx
          · exact hsy
          · rw [hu']; linarith
          · rw [hu']; linarith
          · exact hv0
          · exact hvb
          · rw [hu', herr]; ring
          · rw [hu']; push_cast at hfuel ⊢; linarith
      · by_cases hyg : 2 * err < a
        · have hv1 : 1 ≤ sy * (y2 - y) := by
            by_contra hcon
            have hv_eq : sy * (y2 - y) = 0 := by linarith
            have herr2 : err = a - b + b * (sx * (x2 - x)) := by rw [herr, hv_eq]; ring
            have hu1 : 1 ≤ sx * (x2 - x) := by
              rw [hv_eq] at hne
              linarith
            have hbu : b ≤ b * (sx * (x2 - x)) := by
              calc b = b * 1 := by ring
              _ ≤ b * (sx * (x2 - x)) := mul_le_mul_of_nonneg_left hu1 hb
            linarith
          simp only [if_neg hxg, if_pos hyg]
          apply ih
          · exact ha
          · exact hb
          · exact hsx
          · exact hsy
          · exact hu0
          · exact hua
          · rw [hv']; linarith
          · rw [hv']; linarith
          · rw [hv', herr]; ring
          · rw [hv']; push_cast at hfuel ⊢; linarith
        · exfalso
          push_neg at hxg hyg
          linarith

/-- The Bresenham walk of `drawLineImpl` starts at the first endpoint and
ends exactly at the second: the fuel bound `dx + dy + 1` is sufficient and
the loop stops at `(x2, y2)`. -/
theorem bresPoints_head_last (x1 y1 x2 y2 : ℤ) :
    (bresPoints x1 y1 x2 y2).head? = some (x1, y1) ∧
    (bresPoints x1 y1 x2 y2).getLast? = some (x2, y2) := by
  constructor
  · rfl
  · have hux : (if x1 < x2 then (1 : ℤ) else -1) * (x2 - x1) = |x2 - x1| := by
      by_cases h : x1 < x2
      · rw [if_pos h, abs_of_nonneg (by omega), one_mul]
      · rw [if_neg h, abs_of_nonpos (by omega)]; ring
    have huy : (if y1 < y2 then (1 : ℤ) else -1) * (y2 - y1) = |y2 - y1| := by
      by_cases h : y1 < y2
      · rw [if_pos h, abs_of_nonneg (by omega), one_mul]
      · rw [if_neg h, abs_of_nonpos (by omega)]; ring
    show (bresLoop ((|x2 - x1| + |y2 - y1|).toNat + 1) x1 y1 x2 y2 |x2 - x1| |y2 - y1|
        (if x1 < x2 then 1 else -1) (if y1 < y2 then 1 else -1)
        (|x2 - x1| - |y2 - y1|)).getLast? = some (x2, y2)
    apply bresLoop_last
    · exact abs_nonneg _
    · exact abs_nonneg _
    · by_cases h : x1 < x2
      · left; rw [if_pos h]
      · right; rw [if_neg h]
    · by_cases h : y1 < y2
      · left; rw [if_pos h]
      · right; rw [if_neg h]
    · rw [hux]; exact abs_nonneg _
    · exact le_of_eq hux
    · rw [huy]; exact abs_nonneg _
    · exact le_of_eq huy
    · rw [hux, huy]; ring
    · rw [hux, huy]
      have htn : (((|x2 - x1| + |y2 - y1|).toNat : ℤ)) = |x2 - x1| + |y2 - y1| :=
        Int.toNat_of_nonneg (by positivity)
      push_cast
      rw [htn]
      linarith

/-- **C5.** For every Line op executed by the CPU backend: the effect is
exactly a fold of `blendPixel` (one pixel per step) over the integer
Bresenham walk from the truncated first endpoint to the truncated second
endpoint; the result does not depend on the width argument (the `f32`
parameter is unnamed and ignored on the CPU path); and the walk itself
starts at `(i32(p1.x), i32(p1.y))` and ends exactly at
`(i32(p2.x), i32(p2.y))`. -/
theorem cpu_line_bresenham (b : CpuBackend) (p1 p2 : PointQ) (c : Color) (w w' : ℚ) :
    b.execLine p1 p2 c w =
      (bresPoints (ratToI32 p1.x) (ratToI32 p1.y) (ratToI32 p2.x) (ratToI32 p2.y)).foldl
        (fun st q => st.blendPixel q.1 q.2 c) b ∧
    b.execLine p1 p2 c w = b.execLine p1 p2 c w' ∧
    (bresPoints (ratToI32 p1.x) (ratToI32 p1.y) (ratToI32 p2.x) (ratToI32 p2.y)).head? =
      some (ratToI32 p1.x, ratToI32 p1.y) ∧
    (bresPoints (ratToI32 p1.x) (ratToI32 p1.y) (ratToI32 p2.x) (ratToI32 p2.y)).getLast? =
      some (ratToI32 p2.x, ratToI32 p2.y) :=
  ⟨rfl, rfl,
    (bresPoints_head_last (ratToI32 p1.x) (ratToI32 p1.y) (ratToI32 p2.x) (ratToI32 p2.y)).1,
    (bresPoints_head_last (ratToI32 p1.x) (ratToI32 p1.y) (ratToI32 p2.x) (ratToI32 p2.y)).2⟩

/-! ## GLBackend batching (gl_backend.cpp), `f32` modelled as `ℝ` -/

/-- One vertex of the GL color batch (`GLBackend::Impl::ColorVertex`). -/
structure ColorVertex where
  x : ℝ
  y : ℝ
  r : ℝ
  g : ℝ
  b : ℝ
  a : ℝ

/-- One vertex of the GL texture batch (`GLBackend::Impl::TexVertex`). -/
structure TexVertex where
  x : ℝ
  y : ℝ
  u : ℝ
  v : ℝ

/-- A draw call issued by the GL backend (`glDrawArrays` in
`flushColorBatch` / `flushTexBatch`). -/
inductive GLEvent where
  | colorDraw (verts : List ColorVertex)
  | texDraw (texId : ℕ) (verts : List TexVertex)

/-- The observable GL batching state: the two pending vertex batches and the
stream of draw calls issued so far. -/
structure GLState where
  colorVerts : List ColorVertex
  texVerts : List TexVertex
  events : List GLEvent

open Classical in
/-- `GLBackend::Impl::pushLine`: expand the segment into a quad along the
perpendicular normal, or drop it when its length is below `10⁻⁴`. -/
noncomputable def GLState.pushLine (s : GLState) (x0 y0 x1 y1 : ℝ) (c : Color)
    (width : ℝ) : GLState :=
  let dx := x1 - x0
  let dy := y1 - y0
  let len := Real.sqrt (dx * dx + dy * dy)
  if len < 0.0001 then s
  else
    let hw := width * 0.5
    let nx := -dy / len * hw
    let ny := dx / len * hw
    let r := (c.r : ℝ) / 255
    let g := (c.g : ℝ) / 255
    let b := (c.b : ℝ) / 255
    let a := (c.a : ℝ) / 255
    let v0 : ColorVertex := ⟨x0 + nx, y0 + ny, r, g, b, a⟩
    let v1 : ColorVertex := ⟨x0 - nx, y0 - ny, r, g, b, a⟩
    let v2 : ColorVertex := ⟨x1 + nx, y1 + ny, r, g, b, a⟩
    let v3 : ColorVertex := ⟨x1 - nx, y1 - ny, r, g, b, a⟩
    { s with colorVerts := s.colorVerts ++ [v0, v1, v2, v1, v3, v2] }

/-- `GLBackend::Impl::flushColorBatch`: empty batch is a no-op, otherwise
issue one color draw call and clear the batch. -/
def GLState.flushColorBatch (s : GLState) : GLState :=
  match s.colorVerts with
  | [] => s
  | vs => { s with colorVerts := [], events := s.events ++ [GLEvent.colorDraw vs] }

/-- `GLBackend::Impl::pushTexQuad`. -/
def GLState.pushTexQuad (s : GLState) (x0 y0 x1 y1 u0 v0 u1 v1 : ℝ) : GLState :=
  { s with texVerts := s.texVerts ++
      [⟨x0, y0, u0, v0⟩, ⟨x1, y0, u1, v0⟩, ⟨x0, y1, u0, v1⟩,
       ⟨x1, y0, u1, v0⟩, ⟨x1, y1, u1, v1⟩, ⟨x0, y1, u0, v1⟩] }

/-- `GLBackend::Impl::flushTexBatch`. -/
def GLState.flushTexBatch (s : GLState) (texId : ℕ) : GLState :=
  match s.texVerts with
  | [] => s
  | vs => { s with texVerts := [], events := s.events ++ [GLEvent.texDraw texId vs] }

/-- The `DrawOp::Type::DrawImage` case of `GLBackend::execute`: flush the
color batch, resolve the image (skipping null/invalid ones), resolve its
texture (`resolveTex` stands for `gpuContext_->resolveImageTexture`, constant
`0` when `gpuContext_` is null), then emit one textured quad. -/
def GLState.execDrawImage (s : GLState) (rec : Recording)
    (imageIndex : ℕ) (x y : ℝ) (resolveTex : Image → ℕ) : GLState :=
  let s1 := s.flushColorBatch
  match rec.getImage imageIndex with
  | none => s1
  | some img =>
    if ¬ img.valid then s1
    else
      let texId := if img.storageType = StorageType.gpuTexture then img.glTextureId
        else resolveTex img
      if texId = 0 then s1
      else
        (s1.pushTexQuad x y (x + (img.width : ℝ)) (y + (img.height : ℝ))
          0 0 1 1).flushTexBatch texId

/-- The draw calls a GL state accounts for: those already issued, plus the
pending color batch `GLBackend::execute` unconditionally flushes at its
end. -/
def GLState.drawStream (s : GLState) : List GLEvent :=
  s.events ++ (match s.colorVerts with
    | [] => []
    | vs => [GLEvent.colorDraw vs])

/-- The six color vertices the spec describes for a Line op: two triangles
over the quad corners `p1 ± n`, `p2 ± n`, where
`n = (−dy/len, dx/len) · (w/2)`. -/
noncomputable def lineQuadVerts (x0 y0 x1 y1 : ℝ) (c : Color) (width : ℝ) :
    List ColorVertex :=
  let len := Real.sqrt ((x1 - x0) * (x1 - x0) + (y1 - y0) * (y1 - y0))
  let nx := -(y1 - y0) / len * (width * 0.5)
  let ny := (x1 - x0) / len * (width * 0.5)
  let r := (c.r : ℝ) / 255
  let g := (c.g : ℝ) / 255
  let b := (c.b : ℝ) / 255
  let a := (c.a : ℝ) / 255
  [⟨x0 + nx, y0 + ny, r, g, b, a⟩, ⟨x0 - nx, y0 - ny, r, g, b, a⟩,
   ⟨x1 + nx, y1 + ny, r, g, b, a⟩, ⟨x0 - nx, y0 - ny, r, g, b, a⟩,
   ⟨x1 - nx, y1 - ny, r, g, b, a⟩, ⟨x1 + nx, y1 + ny, r, g, b, a⟩]

/-- **C9.** `GLBackend::Impl::pushLine(p1, p2, c, w)`: when the Euclidean
length of `p2 − p1` is below `10⁻⁴` the op is dropped (no vertices, state
unchanged); otherwise exactly the six color vertices of the two quad
triangles `p1 ± n, p2 ± n` with `n = (−dy/len, dx/len)·(w/2)` are appended
to the color batch, and nothing else changes. -/
theorem gl_pushLine_cases (s : GLState) (x0 y0 x1 y1 : ℝ) (c : Color) (width : ℝ) :
    (Real.sqrt ((x1 - x0) * (x1 - x0) + (y1 - y0) * (y1 - y0)) < 0.0001 →
      s.pushLine x0 y0 x1 y1 c width = s) ∧
    (0.0001 ≤ Real.sqrt ((x1 - x0) * (x1 - x0) + (y1 - y0) * (y1 - y0)) →
      s.pushLine x0 y0 x1 y1 c width =
        { s with colorVerts := s.colorVerts ++ lineQuadVerts x0 y0 x1 y1 c width }) := by
  constructor
  · intro h
    show (if Real.sqrt ((x1 - x0) * (x1 - x0) + (y1 - y0) * (y1 - y0)) < 0.0001
      then s else _) = s
    rw [if_pos h]
  · intro h
    show (if Real.sqrt ((x1 - x0) * (x1 - x0) + (y1 - y0) * (y1 - y0)) < 0.0001
      then s else _) = _
    rw [if_neg (not_lt.mpr h)]
    rfl

/-- Witness for C9: the segment `(0,0)–(3,4)` with width 2 (length 5) emits
the six expected vertices; the degenerate segment `(1,2)–(1,2)` is
dropped. -/
theorem gl_pushLine_witness :
    (⟨[], [], []⟩ : GLState).pushLine 0 0 3 4 ⟨255, 0, 0, 255⟩ 2 =
      ⟨[⟨-(4 / 5), 3 / 5, 1, 0, 0, 1⟩, ⟨4 / 5, -(3 / 5), 1, 0, 0, 1⟩,
        ⟨11 / 5, 23 / 5, 1, 0, 0, 1⟩, ⟨4 / 5, -(3 / 5), 1, 0, 0, 1⟩,
        ⟨19 / 5, 17 / 5, 1, 0, 0, 1⟩, ⟨11 / 5, 23 / 5, 1, 0, 0, 1⟩], [], []⟩ ∧
    (⟨[], [], []⟩ : GLState).pushLine 1 2 1 2 ⟨0, 0, 0, 255⟩ 3 = ⟨[], [], []⟩ := by
  have hlen : Real.sqrt (((3 : ℝ) - 0) * (3 - 0) + ((4 : ℝ) - 0) * (4 - 0)) = 5 := by
    rw [show ((3 : ℝ) - 0) * (3 - 0) + ((4 : ℝ) - 0) * (4 - 0) = 5 ^ 2 by norm_num]
    exact Real.sqrt_sq (by norm_num)
  constructor
  · have h := (gl_pushLine_cases ⟨[], [], []⟩ 0 0 3 4 ⟨255, 0, 0, 255⟩ 2).2
      (by rw [hlen]; norm_num)
    rw [h]
    show (⟨[] ++ lineQuadVerts 0 0 3 4 ⟨255, 0, 0, 255⟩ 2, [], []⟩ : GLState) = _
    unfold lineQuadVerts
    simp only [List.nil_append]
    rw [hlen]
    norm_num
  · have hlen0 : Real.sqrt (((1 : ℝ) - 1) * (1 - 1) + ((2 : ℝ) - 2) * (2 - 2)) = 0 := by
      rw [show ((1 : ℝ) - 1) * (1 - 1) + ((2 : ℝ) - 2) * (2 - 2) = 0 by norm_num]
      exact Real.sqrt_zero
    exact (gl_pushLine_cases ⟨[], [], []⟩ 1 2 1 2 ⟨0, 0, 0, 255⟩ 3).1 (by rw [hlen0]; norm_num)

theorem flushColorBatch_texVerts (s : GLState) :
    s.flushColorBatch.texVerts = s.texVerts := by
  obtain ⟨cv, tv, ev⟩ := s
  cases cv with
  | nil => rfl
  | cons v rest => rfl

theorem flushColorBatch_drawStream (s : GLState) :
    s.flushColorBatch.drawStream = s.drawStream := by
  obtain ⟨cv, tv, ev⟩ := s
  cases cv with
  | nil => rfl
  | cons v rest =>
    show (ev ++ [GLEvent.colorDraw (v :: rest)]) ++ [] =
      ev ++ [GLEvent.colorDraw (v :: rest)]
    simp

/-- **C10.** DrawImage with a missing or invalid image is a safe no-op:
`Recording::getImage` returns `none` for an out-of-range index; the CPU
backend's `drawImageImpl` leaves its state unchanged for a null or invalid
image; and the GL backend's DrawImage case, when the image is missing or
invalid, only flushes the already pending color batch — the texture batch
and the overall stream of draw calls it accounts for are unchanged. -/
theorem drawImage_invalid_noop (rec : Recording) (idx : ℕ) (b : CpuBackend)
    (x y : ℚ) (s : GLState) (rx ry : ℝ) (resolveTex : Image → ℕ) :
    (rec.images.length ≤ idx → rec.getImage idx = none) ∧
    (b.drawImageImpl none x y = b) ∧
    (∀ img : Image, ¬ img.valid → b.drawImageImpl (some img) x y = b) ∧
    (rec.getImage idx = none →
      (s.execDrawImage rec idx rx ry resolveTex).texVerts = s.texVerts ∧
      (s.execDrawImage rec idx rx ry resolveTex).drawStream = s.drawStream) ∧
    (∀ img : Image, rec.getImage idx = some img → ¬ img.valid →
      (s.execDrawImage rec idx rx ry resolveTex).texVerts = s.texVerts ∧
      (s.execDrawImage rec idx rx ry resolveTex).drawStream = s.drawStream) := by
  refine ⟨?_, ?_, ?_, ?_, ?_⟩
  · intro h
    unfold Recording.getImage
    rw [if_neg (not_lt.mpr h)]
  · obtain ⟨tgt, hc, cr⟩ := b
    cases tgt with
    | none => rfl
    | some t =>
      show (if ¬ t.valid then (⟨some t, hc, cr⟩ : CpuBackend) else ⟨some t, hc, cr⟩) =
        ⟨some t, hc, cr⟩
      rw [ite_self]
  · intro img hinv
    obtain ⟨tgt, hc, cr⟩ := b
    cases tgt with
    | none => rfl
    | some t =>
      show (if ¬ t.valid then (⟨some t, hc, cr⟩ : CpuBackend)
        else if ¬ img.valid then (⟨some t, hc, cr⟩ : CpuBackend) else _) =
        ⟨some t, hc, cr⟩
      by_cases hv : t.valid
      · rw [if_neg (not_not_intro hv), if_pos hinv]
      · rw [if_pos hv]
  · intro h
    unfold GLState.execDrawImage
    rw [h]
    exact ⟨flushColorBatch_texVerts s, flushColorBatch_drawStream s⟩
  · intro img h hinv
    unfold GLState.execDrawImage
    rw [h]
    show ((if ¬ img.valid then s.flushColorBatch else _).texVerts = s.texVerts) ∧
      ((if ¬ img.valid then s.flushColorBatch else _).drawStream = s.drawStream)
    rw [if_pos hinv]
    exact ⟨flushColorBatch_texVerts s, flushColorBatch_drawStream s⟩

/-- A 0×0 CPU image without pixels: invalid. -/
def imgW : Image := ⟨0, 0, PixelFormat.BGRA8888, false, fun _ _ => 0,
  StorageType.cpuPixmap, 0⟩

/-- A recording with an empty image table. -/
def recW : Recording := ⟨[], ⟨[]⟩, []⟩

/-- A recording whose image table holds only the invalid image. -/
def recW2 : Recording := ⟨[], ⟨[]⟩, [some imgW]⟩

/-- A GL state with one pending color vertex. -/
def sW : GLState := ⟨[⟨0, 0, 1, 1, 1, 1⟩], [⟨2, 2, 0, 0⟩], []⟩

/-- Witness for C10 at concrete inputs: an out-of-range index on an empty
image table, and an in-range but invalid image. -/
theorem drawImage_invalid_noop_witness :
    recW.getImage 0 = none ∧
    (b4 fun _ _ => 0).drawImageImpl none 1 2 = b4 (fun _ _ => 0) ∧
    (b4 fun _ _ => 0).drawImageImpl (some imgW) 1 2 = b4 (fun _ _ => 0) ∧
    (sW.execDrawImage recW 0 3 4 (fun _ => 0)).texVerts = sW.texVerts ∧
    (sW.execDrawImage recW 0 3 4 (fun _ => 0)).drawStream = sW.drawStream ∧
    (sW.execDrawImage recW2 0 3 4 (fun _ => 0)).texVerts = sW.texVerts ∧
    (sW.execDrawImage recW2 0 3 4 (fun _ => 0)).drawStream = sW.drawStream := by
  have h1 := drawImage_invalid_noop recW 0 (b4 fun _ _ => 0) 1 2 sW 3 4 (fun _ => 0)
  have h2 := drawImage_invalid_noop recW2 0 (b4 fun _ _ => 0) 1 2 sW 3 4 (fun _ => 0)
  have hnone : recW.getImage 0 = none := h1.1 (by norm_num [recW])
  have hinv : ¬ imgW.valid := by decide
  have hsome : recW2.getImage 0 = some imgW := rfl
  have hgl1 := h1.2.2.2.1 hnone
  have hgl2 := h2.2.2.2.2 imgW hsome hinv
  exact ⟨hnone, h1.2.1, h1.2.2.1 imgW hinv, hgl1.1, hgl1.2, hgl2.1, hgl2.2⟩

/-! ## Surface creation (surface.cpp) -/

/-- `ink::GpuContext`, reduced to its `valid()` observation. -/
structure GpuContext where
  valid : Bool

/-- A constructed GL backend object (`GLBackend`), reduced to its size. -/
structure GLBackendObj where
  width : ℤ
  height : ℤ

/-- `GLBackend::Make` (gl_backend.cpp): null for a null or invalid context,
otherwise a fresh GL backend. -/
def GLBackend.Make (ctx : Option GpuContext) (w h : ℤ) : Option GLBackendObj :=
  match ctx with
  | none => none
  | some c => if c.valid = false then none else some ⟨w, h⟩

/-- The backend a `Surface` owns. -/
inductive SurfaceBackend where
  | cpu (b : CpuBackend)
  | gl (g : GLBackendObj)

/-- `ink::Surface`: its backend and (for raster surfaces) its pixmap. -/
structure Surface where
  backend : SurfaceBackend
  pixmap : Option Pixmap

/-- `Surface::MakeRaster` (surface.cpp): allocate a `w×h` pixmap of the given
format and wrap a `CpuBackend` over it.  `Pixmap::Alloc`'s body is not under
`src/`; modelled from the spec as an owned zero-filled buffer of the
requested info, so `hasPixels = true`. -/
def Surface.MakeRaster (w h : ℤ) (fmt : PixelFormat) : Option Surface :=
  some ⟨SurfaceBackend.cpu (mkB ⟨w, h, fmt, true, fun _ _ => 0⟩ false ⟨0, 0, 0, 0⟩),
    some ⟨w, h, fmt, true, fun _ _ => 0⟩⟩

/-- `Surface::MakeGpu` (surface.cpp): null or invalid context falls back to
`MakeRaster`; with GL compiled in (`hasGL` models `INK_HAS_GL`), a
successfully constructed GL backend gives a GPU surface and a failed one
falls back to `MakeRaster`. -/
def Surface.MakeGpu (hasGL : Bool) (context : Option GpuContext) (w h : ℤ)
    (fmt : PixelFormat) : Option Surface :=
  match context with
  | none => Surface.MakeRaster w h fmt
  | some c =>
    if c.valid = false then Surface.MakeRaster w h fmt
    else if hasGL then
      match GLBackend.Make (some c) w h with
      | some g => some ⟨SurfaceBackend.gl g, none⟩
      | none => Surface.MakeRaster w h fmt
    else Surface.MakeRaster w h fmt

/-- **C8.** `Surface::MakeGpu(context, w, h, fmt)` never returns null; for a
null or invalid context, and likewise when GL backend construction fails, it
returns exactly `MakeRaster(w, h, fmt)` — a CPU raster surface whose pixmap
has the same width `w`, height `h` and format `fmt`. -/
theorem makeGpu_fallback (hasGL : Bool) (context : Option GpuContext) (w h : ℤ)
    (fmt : PixelFormat) :
    (∃ s, Surface.MakeGpu hasGL context w h fmt = some s) ∧
    ((context = none ∨ ∃ c, context = some c ∧ c.valid = false) →
      Surface.MakeGpu hasGL context w h fmt = Surface.MakeRaster w h fmt) ∧
    (∀ c, context = some c → GLBackend.Make context w h = none →
      Surface.MakeGpu hasGL context w h fmt = Surface.MakeRaster w h fmt) ∧
    (Surface.MakeRaster w h fmt =
      some ⟨SurfaceBackend.cpu (mkB ⟨w, h, fmt, true, fun _ _ => 0⟩ false ⟨0, 0, 0, 0⟩),
        some ⟨w, h, fmt, true, fun _ _ => 0⟩⟩) := by
  refine ⟨?_, ?_, ?_, rfl⟩
  · cases context with
    | none => exact ⟨_, rfl⟩
    | some c =>
      show (∃ s, (if c.valid = false then Surface.MakeRaster w h fmt
        else if hasGL then _ else Surface.MakeRaster w h fmt) = some s)
      by_cases hv : c.valid = false
      · rw [if_pos hv]
        exact ⟨_, rfl⟩
      · rw [if_neg hv]
        cases hasGL with
        | false => exact ⟨_, rfl⟩
        | true =>
          rw [if_pos rfl]
          show (∃ s, (match GLBackend.Make (some c) w h with
            | some g => some (⟨SurfaceBackend.gl g, none⟩ : Surface)
            | none => Surface.MakeRaster w h fmt) = some s)
          show (∃ s, (match (if c.valid = false then none else some
            (⟨w, h⟩ : GLBackendObj)) with
            | some g => some (⟨SurfaceBackend.gl g, none⟩ : Surface)
            | none => Surface.MakeRaster w h fmt) = some s)
          rw [if_neg hv]
          exact ⟨_, rfl⟩
  · intro hcase
    rcases hcase with hnone | ⟨c, hc, hval⟩
    · rw [hnone]
      rfl
    · rw [hc]
      show (if c.valid = false then Surface.MakeRaster w h fmt else _) = _
      rw [if_pos hval]
  · intro c hc hmake
    rw [hc]
    show (if c.valid = false then Surface.MakeRaster w h fmt else _) = _
    by_cases hv : c.valid = false
    · rw [if_pos hv]
    · exfalso
      rw [hc] at hmake
      have hmake2 : (if c.valid = false then none
          else some (⟨w, h⟩ : GLBackendObj)) = none := hmake
      rw [if_neg hv] at hmake2
      simp at hmake2

/-- Witness for C8: an invalid context falls back to the raster surface, in
both a GL-enabled and a GL-less build. -/
theorem makeGpu_fallback_witness :
    Surface.MakeGpu true (some ⟨false⟩) 2 3 PixelFormat.BGRA8888 =
      Surface.MakeRaster 2 3 PixelFormat.BGRA8888 ∧
    Surface.MakeGpu false (some ⟨false⟩) 4 5 PixelFormat.RGBA8888 =
      Surface.MakeRaster 4 5 PixelFormat.RGBA8888 :=
  ⟨(makeGpu_fallback true (some ⟨false⟩) 2 3 PixelFormat.BGRA8888).2.1
      (Or.inr ⟨⟨false⟩, rfl, rfl⟩),
   (makeGpu_fallback false (some ⟨false⟩) 4 5 PixelFormat.RGBA8888).2.2.1
      ⟨false⟩ rfl rfl⟩

end Ink
